import Mathlib

/-!
Verification of the DOM Anchoring & Positioning Engine of the Web Notes
chrome extension. Each section shallowly embeds one source module
(selection-manager.js, dom-selectors.js, note-dragging.js,
note-positioning.js, note-editing.js) and proves or refutes the
specified properties of its functions.
-/

namespace YAWN

/-! ### Model of selection-manager.js, sanitizeColor (lines 24-68)

The sanitizer is a pure string function.  JS regular expressions are
embedded as executable parsers over the character list of the string;
`parseInt` and `parseFloat` on the captured groups are embedded as exact
rational comparisons (the captured groups are short digit strings, on
which both JS functions are exact). -/

/-- The documented default color returned on any rejected input. -/
def defaultColor : String := "#fff3cd"

/-- One character of the regex class [0-9A-Fa-f]. -/
def isHexDigitChar (c : Char) : Bool :=
  c.isDigit || (('a' ≤ c) && (c ≤ 'f')) || (('A' ≤ c) && (c ≤ 'F'))

/-- The anchored regex /^#([0-9A-Fa-f]{3}|[0-9A-Fa-f]{6})$/ . -/
def matchesHexPattern (s : String) : Bool :=
  match s.data with
  | '#' :: rest => (rest.length == 3 || rest.length == 6) && rest.all isHexDigitChar
  | _ => false

/-- The JS regex class \s (ASCII part). -/
def isJsSpace (c : Char) : Bool :=
  c == ' ' || c == '\t' || c == '\n' || c == '\r' || c == '\x0B' || c == '\x0C'

/-- Consume the longest prefix of whitespace, as \s* does. -/
def skipJsSpaces : List Char → List Char
  | [] => []
  | c :: cs => if isJsSpace c then skipJsSpaces cs else c :: cs

/-- Split off the longest prefix of ASCII digits, as a greedy \d* does. -/
def takeDigits : List Char → List Char × List Char
  | [] => ([], [])
  | c :: cs =>
    if c.isDigit then
      let p := takeDigits cs
      (c :: p.1, p.2)
    else ([], c :: cs)

/-- Numeric value of a digit string: parseInt on an all-digit group. -/
def digitsVal (ds : List Char) : Nat :=
  ds.foldl (fun a c => a * 10 + (c.toNat - 48)) 0

/-- One capture group \s*(\d{1,3})\s* of the rgb/rgba regexes: skips
whitespace, requires one to three digits (a longer digit run cannot match,
since the character after the group must be a comma or parenthesis),
skips trailing whitespace. -/
def parseRgbGroup (l : List Char) : Option (Nat × List Char) :=
  let l1 := skipJsSpaces l
  let p := takeDigits l1
  if p.1.length == 0 || 3 < p.1.length then none
  else some (digitsVal p.1, skipJsSpaces p.2)

/-- The anchored regex /^rgb\(\s*(\d{1,3})\s*,\s*(\d{1,3})\s*,\s*(\d{1,3})\s*\)$/,
returning the three captured groups. -/
def matchesRgbPattern (s : String) : Option (Nat × Nat × Nat) :=
  match s.data with
  | 'r' :: 'g' :: 'b' :: '(' :: rest =>
    match parseRgbGroup rest with
    | some (r, ',' :: l2) =>
      match parseRgbGroup l2 with
      | some (g, ',' :: l3) =>
        match parseRgbGroup l3 with
        | some (b, [')']) => some (r, g, b)
        | _ => none
      | _ => none
    | _ => none
  | _ => none

/-- The alpha capture group ([01]?\.?\d*) of the rgba regex. -/
structure AlphaGroup where
  lead : Option Char
  hasDot : Bool
  frac : List Char
  deriving DecidableEq, Repr

/-- Greedy match of [01]?\.?\d* (the following character is a space or a
closing parenthesis, so greedy matching is exhaustive here). -/
def takeAlpha (l : List Char) : AlphaGroup × List Char :=
  let q :=
    match l with
    | c :: cs => if c == '0' || c == '1' then (some c, cs) else ((none : Option Char), l)
    | [] => ((none : Option Char), [])
  let q2 :=
    match q.2 with
    | '.' :: cs => (true, cs)
    | _ => (false, q.2)
  let p := takeDigits q2.2
  ({ lead := q.1, hasDot := q2.1, frac := p.1 }, p.2)

/-- parseFloat of the alpha group yields a number (not NaN). -/
def alphaIsNum (a : AlphaGroup) : Bool :=
  a.lead.isSome || !a.frac.isEmpty

/-- The check parseFloat(a) <= 1 of the source, exact: false when the group
parses to NaN, otherwise the rational value compared with one. -/
def alphaLeOne (a : AlphaGroup) : Bool :=
  if !(alphaIsNum a) then false
  else if a.hasDot then
    decide (digitsVal a.lead.toList * 10 ^ a.frac.length + digitsVal a.frac ≤ 10 ^ a.frac.length)
  else
    decide (digitsVal (a.lead.toList ++ a.frac) ≤ 1)

/-- The anchored regex
/^rgba\(\s*(\d{1,3})\s*,\s*(\d{1,3})\s*,\s*(\d{1,3})\s*,\s*([01]?\.?\d*)\s*\)$/ . -/
def matchesRgbaPattern (s : String) : Option (Nat × Nat × Nat × AlphaGroup) :=
  match s.data with
  | 'r' :: 'g' :: 'b' :: 'a' :: '(' :: rest =>
    match parseRgbGroup rest with
    | some (r, ',' :: l2) =>
      match parseRgbGroup l2 with
      | some (g, ',' :: l3) =>
        match parseRgbGroup l3 with
        | some (b, ',' :: l4) =>
          let q := takeAlpha (skipJsSpaces l4)
          match skipJsSpaces q.2 with
          | [')'] => some (r, g, b, q.1)
          | _ => none
        | _ => none
      | _ => none
    | _ => none
  | _ => none

/-- The fixed named-color allow list of the source. -/
def namedColors : List String :=
  ["transparent", "white", "black", "red", "green", "blue", "yellow", "orange",
   "purple", "pink", "gray", "grey", "brown", "cyan", "magenta", "lime"]

/-- JS String.toLowerCase per character (ASCII case mapping plus the Kelvin
sign, the one non-ASCII code point whose JS lowercase form is an ASCII
letter occurring in the allow list). -/
def jsCharToLower (c : Char) : Char :=
  if c == 'K' then 'k' else c.toLower

/-- JS String.toLowerCase. -/
def jsToLower (s : String) : String := String.mk (s.data.map jsCharToLower)

/-- A JS argument value for sanitizeColor: a string, or any non-string
value (null, undefined, numbers, objects), which the source rejects by
the typeof check. -/
inductive ColorInput where
  | str : String → ColorInput
  | nonString : ColorInput
  deriving DecidableEq

/-- Final stage of the sanitizer: named-color allow list, else default. -/
def sanitizeNamed (s : String) : String :=
  if namedColors.contains (jsToLower s) then jsToLower s else defaultColor

/-- Stage of the sanitizer after the rgb() test has fallen through:
rgba() with range checks, then named colors, then default. -/
def sanitizeAfterRgb (s : String) : String :=
  match matchesRgbaPattern s with
  | some (r, g, b, a) =>
    if decide (r ≤ 255) && decide (g ≤ 255) && decide (b ≤ 255) && alphaLeOne a then s
    else sanitizeNamed s
  | none => sanitizeNamed s

/-- sanitizeColor on a non-empty string argument: hex, then rgb() with
range checks, then the later stages.  A pattern that matches but fails
its range check falls through to the next stage, as in the source. -/
def sanitizeColorStr (s : String) : String :=
  if matchesHexPattern s then s
  else
    match matchesRgbPattern s with
    | some (r, g, b) =>
      if decide (r ≤ 255) && decide (g ≤ 255) && decide (b ≤ 255) then s
      else sanitizeAfterRgb s
    | none => sanitizeAfterRgb s

/-- sanitizeColor (selection-manager.js lines 24-68).  The guard
(!color || typeof color !== 'string') sends non-strings and the empty
string (the only falsy string) to the default. -/
def sanitizeColor : ColorInput → String
  | .nonString => defaultColor
  | .str s => if s == "" then defaultColor else sanitizeColorStr s

/-! Supporting lemmas about the sanitizer's branch structure. -/

theorem matchesHexPattern_shape {s : String} (h : matchesHexPattern s = true) :
    ∃ t, s.data = '#' :: t := by
  unfold matchesHexPattern at h
  split at h
  · next rest heq => exact ⟨rest, heq⟩
  · exact absurd h (by simp)

theorem matchesRgbPattern_shape {s : String} {x : Nat × Nat × Nat}
    (h : matchesRgbPattern s = some x) : ∃ t, s.data = 'r' :: 'g' :: 'b' :: '(' :: t := by
  unfold matchesRgbPattern at h
  split at h
  · next rest heq => exact ⟨rest, heq⟩
  · exact absurd h (by simp)

theorem matchesRgbaPattern_shape {s : String} {x : Nat × Nat × Nat × AlphaGroup}
    (h : matchesRgbaPattern s = some x) :
    ∃ t, s.data = 'r' :: 'g' :: 'b' :: 'a' :: '(' :: t := by
  unfold matchesRgbaPattern at h
  split at h
  · next rest heq => exact ⟨rest, heq⟩
  · exact absurd h (by simp)

theorem ne_empty_of_data {s : String} {c : Char} {t : List Char}
    (h : s.data = c :: t) : (s == "") = false := by
  rw [beq_eq_false_iff_ne]
  intro contra
  rw [contra] at h
  simp at h

theorem matchesHexPattern_of_r {s : String} {t : List Char}
    (h : s.data = 'r' :: t) : matchesHexPattern s = false := by
  unfold matchesHexPattern
  rw [h]
  rfl

theorem matchesRgbPattern_of_rgba {s : String} {t : List Char}
    (h : s.data = 'r' :: 'g' :: 'b' :: 'a' :: '(' :: t) : matchesRgbPattern s = none := by
  unfold matchesRgbPattern
  rw [h]
  rfl

theorem sanitizeNamed_eq_of_named {s : String}
    (h : namedColors.contains (jsToLower s) = true) : sanitizeNamed s = jsToLower s := by
  unfold sanitizeNamed
  rw [if_pos h]

theorem sanitizeNamed_eq_of_unnamed {s : String}
    (h : namedColors.contains (jsToLower s) = false) : sanitizeNamed s = defaultColor := by
  unfold sanitizeNamed
  rw [if_neg (by rw [h]; simp)]

theorem sanitizeAfterRgb_eq_of_none {s : String}
    (h : matchesRgbaPattern s = none) : sanitizeAfterRgb s = sanitizeNamed s := by
  unfold sanitizeAfterRgb
  rw [h]

theorem sanitizeAfterRgb_eq_of_pass {s : String} {r g b : Nat} {a : AlphaGroup}
    (h : matchesRgbaPattern s = some (r, g, b, a))
    (hc : (decide (r ≤ 255) && decide (g ≤ 255) && decide (b ≤ 255) && alphaLeOne a) = true) :
    sanitizeAfterRgb s = s := by
  unfold sanitizeAfterRgb
  rw [h]
  simp only [hc, if_true]

theorem sanitizeAfterRgb_eq_of_fail {s : String} {r g b : Nat} {a : AlphaGroup}
    (h : matchesRgbaPattern s = some (r, g, b, a))
    (hc : (decide (r ≤ 255) && decide (g ≤ 255) && decide (b ≤ 255) && alphaLeOne a) = false) :
    sanitizeAfterRgb s = sanitizeNamed s := by
  unfold sanitizeAfterRgb
  rw [h]
  simp only [hc, Bool.false_eq_true, if_false]

theorem sanitizeColorStr_eq_of_hex {s : String}
    (h : matchesHexPattern s = true) : sanitizeColorStr s = s := by
  unfold sanitizeColorStr
  rw [if_pos h]

theorem sanitizeColorStr_eq_of_rgb_none {s : String}
    (hh : matchesHexPattern s = false) (hr : matchesRgbPattern s = none) :
    sanitizeColorStr s = sanitizeAfterRgb s := by
  unfold sanitizeColorStr
  rw [if_neg (by simp [hh]), hr]

theorem sanitizeColorStr_eq_of_rgb_pass {s : String} {r g b : Nat}
    (hh : matchesHexPattern s = false) (hr : matchesRgbPattern s = some (r, g, b))
    (hc : (decide (r ≤ 255) && decide (g ≤ 255) && decide (b ≤ 255)) = true) :
    sanitizeColorStr s = s := by
  unfold sanitizeColorStr
  rw [if_neg (by simp [hh]), hr]
  simp only [hc, if_true]

theorem sanitizeColorStr_eq_of_rgb_fail {s : String} {r g b : Nat}
    (hh : matchesHexPattern s = false) (hr : matchesRgbPattern s = some (r, g, b))
    (hc : (decide (r ≤ 255) && decide (g ≤ 255) && decide (b ≤ 255)) = false) :
    sanitizeColorStr s = sanitizeAfterRgb s := by
  unfold sanitizeColorStr
  rw [if_neg (by simp [hh]), hr]
  simp only [hc, Bool.false_eq_true, if_false]

/-- Case analysis of the sanitizer on a non-empty string, following the
source's cascade of pattern tests with fall-through on range failure. -/
theorem sanitizeColorStr_cases (s : String) :
    sanitizeColorStr s = defaultColor ∨
    (matchesHexPattern s = true ∧ sanitizeColorStr s = s) ∨
    (∃ r g b, matchesRgbPattern s = some (r, g, b) ∧ r ≤ 255 ∧ g ≤ 255 ∧ b ≤ 255 ∧
      sanitizeColorStr s = s) ∨
    (∃ r g b a, matchesRgbaPattern s = some (r, g, b, a) ∧ r ≤ 255 ∧ g ≤ 255 ∧ b ≤ 255 ∧
      alphaLeOne a = true ∧ sanitizeColorStr s = s) ∨
    (namedColors.contains (jsToLower s) = true ∧ sanitizeColorStr s = jsToLower s) := by
  have hnamed : sanitizeColorStr s = sanitizeNamed s →
      (sanitizeColorStr s = defaultColor ∨
        (matchesHexPattern s = true ∧ sanitizeColorStr s = s) ∨
        (∃ r g b, matchesRgbPattern s = some (r, g, b) ∧ r ≤ 255 ∧ g ≤ 255 ∧ b ≤ 255 ∧
          sanitizeColorStr s = s) ∨
        (∃ r g b a, matchesRgbaPattern s = some (r, g, b, a) ∧ r ≤ 255 ∧ g ≤ 255 ∧
          b ≤ 255 ∧ alphaLeOne a = true ∧ sanitizeColorStr s = s) ∨
        (namedColors.contains (jsToLower s) = true ∧ sanitizeColorStr s = jsToLower s)) := by
    intro heq
    by_cases hn : namedColors.contains (jsToLower s) = true
    · exact Or.inr (Or.inr (Or.inr (Or.inr
        ⟨hn, heq.trans (sanitizeNamed_eq_of_named hn)⟩)))
    · exact Or.inl (heq.trans (sanitizeNamed_eq_of_unnamed (by simpa using hn)))
  have hafter : sanitizeColorStr s = sanitizeAfterRgb s →
      (sanitizeColorStr s = defaultColor ∨
        (matchesHexPattern s = true ∧ sanitizeColorStr s = s) ∨
        (∃ r g b, matchesRgbPattern s = some (r, g, b) ∧ r ≤ 255 ∧ g ≤ 255 ∧ b ≤ 255 ∧
          sanitizeColorStr s = s) ∨
        (∃ r g b a, matchesRgbaPattern s = some (r, g, b, a) ∧ r ≤ 255 ∧ g ≤ 255 ∧
          b ≤ 255 ∧ alphaLeOne a = true ∧ sanitizeColorStr s = s) ∨
        (namedColors.contains (jsToLower s) = true ∧ sanitizeColorStr s = jsToLower s)) := by
    intro heq
    obtain hra | ⟨r, g, b, a, hra⟩ :
        matchesRgbaPattern s = none ∨
          ∃ r g b a, matchesRgbaPattern s = some (r, g, b, a) := by
      cases matchesRgbaPattern s with
      | none => exact Or.inl rfl
      | some x => exact Or.inr ⟨x.1, x.2.1, x.2.2.1, x.2.2.2, rfl⟩
    · exact hnamed (heq.trans (sanitizeAfterRgb_eq_of_none hra))
    · by_cases hc : (decide (r ≤ 255) && decide (g ≤ 255) && decide (b ≤ 255)
          && alphaLeOne a) = true
      · have hc2 := hc
        simp only [Bool.and_eq_true, decide_eq_true_eq] at hc2
        exact Or.inr (Or.inr (Or.inr (Or.inl ⟨r, g, b, a, hra, hc2.1.1.1, hc2.1.1.2,
          hc2.1.2, hc2.2, heq.trans (sanitizeAfterRgb_eq_of_pass hra hc)⟩)))
      · exact hnamed (heq.trans
          (sanitizeAfterRgb_eq_of_fail hra (by simpa using hc)))
  by_cases hh : matchesHexPattern s = true
  · exact Or.inr (Or.inl ⟨hh, sanitizeColorStr_eq_of_hex hh⟩)
  · have hh2 : matchesHexPattern s = false := by simpa using hh
    obtain hr | ⟨r, g, b, hr⟩ :
        matchesRgbPattern s = none ∨ ∃ r g b, matchesRgbPattern s = some (r, g, b) := by
      cases matchesRgbPattern s with
      | none => exact Or.inl rfl
      | some x => exact Or.inr ⟨x.1, x.2.1, x.2.2, rfl⟩
    · exact hafter (sanitizeColorStr_eq_of_rgb_none hh2 hr)
    · by_cases hc : (decide (r ≤ 255) && decide (g ≤ 255) && decide (b ≤ 255)) = true
      · have hc2 := hc
        simp only [Bool.and_eq_true, decide_eq_true_eq] at hc2
        exact Or.inr (Or.inr (Or.inl ⟨r, g, b, hr, hc2.1.1, hc2.1.2, hc2.2,
          sanitizeColorStr_eq_of_rgb_pass hh2 hr hc⟩))
      · exact hafter (sanitizeColorStr_eq_of_rgb_fail hh2 hr (by simpa using hc))

/-- C8.  For every input value, sanitizeColor returns either the input
itself when it is a 3- or 6-digit hex color, an rgb()/rgba() value whose
numeric components pass the range checks, or a lowercased member of the
fixed named-color set; every other input (including non-strings) yields
the documented default color "#fff3cd".  The function is total (it is a
Lean function), so it never throws or propagates an error. -/
theorem sanitizeColor_allowlist (c : ColorInput) :
    sanitizeColor c = defaultColor ∨
    (∃ s, c = ColorInput.str s ∧
      ((matchesHexPattern s = true ∧ sanitizeColor c = s) ∨
       (∃ r g b, matchesRgbPattern s = some (r, g, b) ∧ r ≤ 255 ∧ g ≤ 255 ∧ b ≤ 255 ∧
         sanitizeColor c = s) ∨
       (∃ r g b a, matchesRgbaPattern s = some (r, g, b, a) ∧ r ≤ 255 ∧ g ≤ 255 ∧
         b ≤ 255 ∧ alphaLeOne a = true ∧ sanitizeColor c = s) ∨
       (namedColors.contains (jsToLower s) = true ∧ sanitizeColor c = jsToLower s))) := by
  cases c with
  | nonString => exact Or.inl rfl
  | str s =>
    by_cases hempty : (s == "") = true
    · exact Or.inl (by simp [sanitizeColor, hempty])
    · have heq : sanitizeColor (ColorInput.str s) = sanitizeColorStr s := by
        simp [sanitizeColor, Bool.not_eq_true] at hempty ⊢
        simp [hempty]
      rcases sanitizeColorStr_cases s with h | h | h | h | h
      · exact Or.inl (heq.trans h)
      · exact Or.inr ⟨s, rfl, Or.inl ⟨h.1, heq.trans h.2⟩⟩
      · obtain ⟨r, g, b, h1, h2, h3, h4, h5⟩ := h
        exact Or.inr ⟨s, rfl, Or.inr (Or.inl ⟨r, g, b, h1, h2, h3, h4, heq.trans h5⟩)⟩
      · obtain ⟨r, g, b, a, h1, h2, h3, h4, h5, h6⟩ := h
        exact Or.inr ⟨s, rfl, Or.inr (Or.inr (Or.inl
          ⟨r, g, b, a, h1, h2, h3, h4, h5, heq.trans h6⟩))⟩
      · exact Or.inr ⟨s, rfl, Or.inr (Or.inr (Or.inr ⟨h.1, heq.trans h.2⟩))⟩

theorem sanitizeColor_str_eq {s : String} {c : Char} {t : List Char}
    (h : s.data = c :: t) : sanitizeColor (ColorInput.str s) = sanitizeColorStr s := by
  simp only [sanitizeColor, ne_empty_of_data h, Bool.false_eq_true, if_false]

theorem namedColors_fixed {t : String} (h : namedColors.contains t = true) :
    sanitizeColor (ColorInput.str t) = t := by
  have hm : t ∈ namedColors := by simpa using h
  fin_cases hm <;> decide

theorem defaultColor_fixed : sanitizeColor (ColorInput.str defaultColor) = defaultColor := by
  decide

/-- C10.  sanitizeColor is idempotent: feeding any output of the sanitizer
back through it returns that output unchanged, since accepted hex, rgb(),
rgba() and lowercased named colors are re-accepted and the default color
is itself a 6-digit hex color. -/
theorem sanitizeColor_idempotent (c : ColorInput) :
    sanitizeColor (ColorInput.str (sanitizeColor c)) = sanitizeColor c := by
  cases c with
  | nonString => exact defaultColor_fixed
  | str s =>
    by_cases hempty : (s == "") = true
    · have h0 : sanitizeColor (ColorInput.str s) = defaultColor := by
        simp only [sanitizeColor, hempty, if_true]
      rw [h0]
      exact defaultColor_fixed
    · have hne : (s == "") = false := by simpa using hempty
      have heq : sanitizeColor (ColorInput.str s) = sanitizeColorStr s := by
        simp only [sanitizeColor, hne, Bool.false_eq_true, if_false]
      rcases sanitizeColorStr_cases s with h | ⟨hh, hfix⟩ | ⟨r, g, b, hr, _, _, _, hfix⟩ |
          ⟨r, g, b, a, hra, _, _, _, _, hfix⟩ | ⟨hn, hfix⟩
      · rw [heq, h]
        exact defaultColor_fixed
      · rw [heq, hfix]
        obtain ⟨u, hu⟩ := matchesHexPattern_shape hh
        rw [sanitizeColor_str_eq hu, hfix]
      · rw [heq, hfix]
        obtain ⟨u, hu⟩ := matchesRgbPattern_shape hr
        rw [sanitizeColor_str_eq hu, hfix]
      · rw [heq, hfix]
        obtain ⟨u, hu⟩ := matchesRgbaPattern_shape hra
        rw [sanitizeColor_str_eq hu, hfix]
      · rw [heq, hfix]
        exact namedColors_fixed hn

/-! ### Model of note-dragging.js, drag threshold (lines 21-29, 139-176)

Pointer coordinates and note positions are integers (CSS pixel values as
manipulated through parseInt and style writes).  The source compares
Math.sqrt(dx*dx + dy*dy) > DRAG_THRESHOLD; on integer deltas this is
equivalent to the exact comparison dx^2 + dy^2 > DRAG_THRESHOLD^2, since
the real square root is monotone and sqrt is exactly 5 at 25. -/

/-- DRAGGING_CONSTANTS.DRAG_THRESHOLD. -/
def DRAG_THRESHOLD : Int := 5

/-- DRAGGING_CONSTANTS.SCROLL_ZONE_SIZE. -/
def SCROLL_ZONE_SIZE : Int := 50

/-- DRAGGING_CONSTANTS.SCROLL_SPEED. -/
def SCROLL_SPEED : Int := 5

/-- window.innerWidth and window.innerHeight. -/
structure Viewport where
  innerWidth : Int
  innerHeight : Int
  deriving DecidableEq, Repr

/-- The DraggingState fields read or written by handleMouseMove, plus the
window scroll position mutated by handleAutoScroll, and the dragged
note's style.left/style.top.  draggedNote records whether the field is
non-null. -/
structure DraggingState where
  isDragging : Bool
  draggedNote : Bool
  initialMousePos : Int × Int
  initialNotePos : Int × Int
  noteLeft : Int
  noteTop : Int
  scrollPos : Int × Int
  deriving DecidableEq, Repr

/-- handleAutoScroll (note-dragging.js lines 301-340): near-edge pointer
positions scroll the window and shift the dragged note by the same
amount. -/
def handleAutoScroll (vp : Viewport) (ev : Int × Int) (st : DraggingState) : DraggingState :=
  let scrollX : Int :=
    if ev.1 < SCROLL_ZONE_SIZE then -SCROLL_SPEED
    else if ev.1 > vp.innerWidth - SCROLL_ZONE_SIZE then SCROLL_SPEED
    else 0
  let scrollY : Int :=
    if ev.2 < SCROLL_ZONE_SIZE then -SCROLL_SPEED
    else if ev.2 > vp.innerHeight - SCROLL_ZONE_SIZE then SCROLL_SPEED
    else 0
  if scrollX ≠ 0 ∨ scrollY ≠ 0 then
    { st with
      scrollPos := (st.scrollPos.1 + scrollX, st.scrollPos.2 + scrollY),
      noteLeft := st.noteLeft + scrollX,
      noteTop := st.noteTop + scrollY }
  else st

/-- handleMouseMove (note-dragging.js lines 139-176).  Below or at the
threshold with isDragging still false, the handler returns before any
state change; otherwise it enters the dragging state, writes the note's
new position from the pointer delta and runs the auto-scroll step.
(startDragVisualEffects and updateDropTargetHighlight touch only style
classes outside this state.) -/
def handleMouseMove (vp : Viewport) (st : DraggingState) (ev : Int × Int) : DraggingState :=
  if st.draggedNote = false then st
  else
    let deltaX := ev.1 - st.initialMousePos.1
    let deltaY := ev.2 - st.initialMousePos.2
    if st.isDragging = false ∧ deltaX ^ 2 + deltaY ^ 2 ≤ DRAG_THRESHOLD ^ 2 then st
    else
      handleAutoScroll vp ev
        { st with
          isDragging := true,
          noteLeft := st.initialNotePos.1 + deltaX,
          noteTop := st.initialNotePos.2 + deltaY }

theorem handleAutoScroll_isDragging (vp : Viewport) (ev : Int × Int) (st : DraggingState) :
    (handleAutoScroll vp ev st).isDragging = st.isDragging := by
  unfold handleAutoScroll
  repeat' split
  all_goals rfl

/-- A pointer-down state on a note at (100, 100) with the pointer armed
at (0, 0), as startDrag leaves it. -/
def armedState : DraggingState :=
  { isDragging := false
    draggedNote := true
    initialMousePos := (0, 0)
    initialNotePos := (100, 100)
    noteLeft := 100
    noteTop := 100
    scrollPos := (0, 0) }

/-- C3 counterexample.  A pointer move to (3, 4) has Euclidean distance
exactly 5 = DRAG_THRESHOLD from the initial pointer position, yet the
handler does not enter the Dragging state, because the source uses the
strict comparison distance > DRAG_THRESHOLD: movement at the threshold
does not start a drag, refuting the claim's "at or beyond" half. -/
theorem handleMouseMove_at_threshold_not_dragging :
    3 ^ 2 + 4 ^ 2 = DRAG_THRESHOLD ^ 2 ∧
    handleMouseMove ⟨1000, 800⟩ armedState (3, 4) = armedState ∧
    (handleMouseMove ⟨1000, 800⟩ armedState (3, 4)).isDragging = false := by
  refine ⟨by decide, by decide, by decide⟩

/-- C3 amended.  After pointer-down on a note, cumulative pointer movement
whose Euclidean distance from the initial pointer position is at most the
configured drag threshold never transitions the drag controller into the
Dragging state and never mutates any state (in particular the note's
position); movement strictly beyond the threshold always enters
Dragging. -/
theorem handleMouseMove_threshold (vp : Viewport) (st : DraggingState) (ev : Int × Int) :
    (st.isDragging = false →
      (ev.1 - st.initialMousePos.1) ^ 2 + (ev.2 - st.initialMousePos.2) ^ 2 ≤
        DRAG_THRESHOLD ^ 2 →
      handleMouseMove vp st ev = st) ∧
    (st.draggedNote = true →
      DRAG_THRESHOLD ^ 2 <
        (ev.1 - st.initialMousePos.1) ^ 2 + (ev.2 - st.initialMousePos.2) ^ 2 →
      (handleMouseMove vp st ev).isDragging = true) := by
  constructor
  · intro hidle hdist
    unfold handleMouseMove
    by_cases hn : st.draggedNote = false
    · rw [if_pos hn]
    · rw [if_neg hn, if_pos ⟨hidle, hdist⟩]
  · intro hnote hdist
    unfold handleMouseMove
    rw [if_neg (by rw [hnote]; simp)]
    rw [if_neg (by intro h; exact absurd hdist (not_lt.mpr h.2))]
    rw [handleAutoScroll_isDragging]

/-- C3 amended witness at the threshold boundary: distance 5 stays armed,
a one-pixel-longer move of (3, 5) (squared distance 34 > 25) enters
Dragging. -/
theorem handleMouseMove_threshold_witness :
    handleMouseMove ⟨1000, 800⟩ armedState (3, 4) = armedState ∧
    (handleMouseMove ⟨1000, 800⟩ armedState (3, 5)).isDragging = true := by
  constructor
  · exact (handleMouseMove_threshold ⟨1000, 800⟩ armedState (3, 4)).1 (by decide) (by decide)
  · exact (handleMouseMove_threshold ⟨1000, 800⟩ armedState (3, 5)).2 (by decide) (by decide)

/-! ### Model of note-positioning.js, ensureNoteVisibility (lines 23-85)

Geometry is modeled in integer CSS pixels.  The note is absolutely
positioned in the page, so its offsetLeft/offsetTop (document
coordinates) equal its bounding-rect left/top (viewport coordinates)
plus the window scroll offsets, and writing style.left = L places the
rect's left edge at L minus the horizontal scroll. -/

/-- POSITIONING_CONSTANTS.MIN_VIEWPORT_MARGIN. -/
def MIN_VIEWPORT_MARGIN : Int := 20

/-- A bounding client rect in viewport coordinates. -/
structure Rect where
  left : Int
  top : Int
  width : Int
  height : Int
  deriving DecidableEq, Repr

/-- rect.right. -/
def Rect.right (r : Rect) : Int := r.left + r.width

/-- rect.bottom. -/
def Rect.bottom (r : Rect) : Int := r.top + r.height

/-- ensureNoteVisibility: given the viewport size, the window scroll
offsets and the note's current rect, returns the (style.left, style.top)
written when an adjustment fires, and none when the note is not moved. -/
def ensureNoteVisibility (vp : Viewport) (scroll : Int × Int) (rect : Rect) :
    Option (Int × Int) :=
  let newLeft :=
    if rect.right > vp.innerWidth - MIN_VIEWPORT_MARGIN then
      vp.innerWidth - rect.width - MIN_VIEWPORT_MARGIN + scroll.1
    else if rect.left < MIN_VIEWPORT_MARGIN then
      MIN_VIEWPORT_MARGIN + scroll.1
    else rect.left + scroll.1
  let newTop :=
    if rect.bottom > vp.innerHeight - MIN_VIEWPORT_MARGIN then
      vp.innerHeight - rect.height - MIN_VIEWPORT_MARGIN + scroll.2
    else if rect.top < MIN_VIEWPORT_MARGIN then
      MIN_VIEWPORT_MARGIN + scroll.2
    else rect.top + scroll.2
  let adjusted :=
    decide (rect.right > vp.innerWidth - MIN_VIEWPORT_MARGIN) ||
    decide (rect.left < MIN_VIEWPORT_MARGIN) ||
    decide (rect.bottom > vp.innerHeight - MIN_VIEWPORT_MARGIN) ||
    decide (rect.top < MIN_VIEWPORT_MARGIN)
  if adjusted then some (newLeft, newTop) else none

/-- All four edges of the rect lie within the margin band of the
viewport. -/
def insideBand (vp : Viewport) (rect : Rect) : Prop :=
  MIN_VIEWPORT_MARGIN ≤ rect.left ∧ rect.right ≤ vp.innerWidth - MIN_VIEWPORT_MARGIN ∧
  MIN_VIEWPORT_MARGIN ≤ rect.top ∧ rect.bottom ≤ vp.innerHeight - MIN_VIEWPORT_MARGIN

instance (vp : Viewport) (rect : Rect) : Decidable (insideBand vp rect) := by
  unfold insideBand
  infer_instance

/-- The rect the note occupies after the style write (style.left, style.top)
takes effect, under the absolute-positioning model. -/
def appliedRect (scroll : Int × Int) (rect : Rect) (p : Int × Int) : Rect :=
  { left := p.1 - scroll.1, top := p.2 - scroll.2, width := rect.width, height := rect.height }

/-- C7 counterexample.  Viewport 100 by 100 (band [20, 80]), note of width
90 at rect (0, 30): the right edge overflows, so the function clamps the
right edge to 80, placing style.left at -10; the resulting left edge -10
still lies outside the band.  A note wider than the band cannot have all
four edges inside it, refuting the unrestricted claim. -/
theorem ensureNoteVisibility_wide_note_escapes_band :
    ¬ insideBand ⟨100, 100⟩ ⟨0, 30, 90, 40⟩ ∧
    ensureNoteVisibility ⟨100, 100⟩ (0, 0) ⟨0, 30, 90, 40⟩ = some (-10, 30) ∧
    ¬ insideBand ⟨100, 100⟩ (appliedRect (0, 0) ⟨0, 30, 90, 40⟩ (-10, 30)) := by
  refine ⟨by decide, by decide, by decide⟩

/-- C7 amended.  For a note element no larger than the margin band on
either axis, ensureNoteVisibility never moves a note whose rect already
lies fully inside the band, and whenever any edge lies outside the band
it writes a position whose resulting rect lies fully inside the band. -/
theorem ensureNoteVisibility_clamps (vp : Viewport) (scroll : Int × Int) (rect : Rect)
    (hw : rect.width ≤ vp.innerWidth - 2 * MIN_VIEWPORT_MARGIN)
    (hh : rect.height ≤ vp.innerHeight - 2 * MIN_VIEWPORT_MARGIN) :
    (insideBand vp rect → ensureNoteVisibility vp scroll rect = none) ∧
    (¬ insideBand vp rect →
      ∃ p, ensureNoteVisibility vp scroll rect = some p ∧
        insideBand vp (appliedRect scroll rect p)) := by
  constructor
  · intro hin
    obtain ⟨h1, h2, h3, h4⟩ := hin
    unfold ensureNoteVisibility
    simp only [not_lt.mpr h1, not_lt.mpr h3, not_lt.mpr h2, not_lt.mpr h4, decide_False,
      Bool.or_self, Bool.or_false, Bool.false_or, if_false]
    split
    · next hcond => simp at hcond
    · rfl
  · intro hout
    unfold ensureNoteVisibility
    simp only [insideBand, not_and_or, not_le] at hout
    have hadj : (decide (rect.right > vp.innerWidth - MIN_VIEWPORT_MARGIN) ||
        decide (rect.left < MIN_VIEWPORT_MARGIN) ||
        decide (rect.bottom > vp.innerHeight - MIN_VIEWPORT_MARGIN) ||
        decide (rect.top < MIN_VIEWPORT_MARGIN)) = true := by
      rcases hout with h | h | h | h
      all_goals simp [h]
    refine ⟨_, by rw [if_pos hadj], ?_⟩
    unfold appliedRect insideBand Rect.right Rect.bottom
    unfold Rect.right Rect.bottom at hout
    dsimp only
    constructor
    · by_cases hA : rect.left + rect.width > vp.innerWidth - MIN_VIEWPORT_MARGIN
      · rw [if_pos hA]; omega
      · rw [if_neg hA]
        by_cases hB : rect.left < MIN_VIEWPORT_MARGIN
        · rw [if_pos hB]; omega
        · rw [if_neg hB]; omega
    refine ⟨?_, ?_, ?_⟩
    · by_cases hA : rect.left + rect.width > vp.innerWidth - MIN_VIEWPORT_MARGIN
      · rw [if_pos hA]; omega
      · rw [if_neg hA]
        by_cases hB : rect.left < MIN_VIEWPORT_MARGIN
        · rw [if_pos hB]; omega
        · rw [if_neg hB]; omega
    · by_cases hA : rect.top + rect.height > vp.innerHeight - MIN_VIEWPORT_MARGIN
      · rw [if_pos hA]; omega
      · rw [if_neg hA]
        by_cases hB : rect.top < MIN_VIEWPORT_MARGIN
        · rw [if_pos hB]; omega
        · rw [if_neg hB]; omega
    · by_cases hA : rect.top + rect.height > vp.innerHeight - MIN_VIEWPORT_MARGIN
      · rw [if_pos hA]; omega
      · rw [if_neg hA]
        by_cases hB : rect.top < MIN_VIEWPORT_MARGIN
        · rw [if_pos hB]; omega
        · rw [if_neg hB]; omega

/-- C7 amended witness.  A 50 by 30 note at (5, 40) in a 200 by 200
viewport (left edge outside the band) is clamped to (20, 40), fully
inside the band; the same note at (30, 40) is not moved. -/
theorem ensureNoteVisibility_clamps_witness :
    ensureNoteVisibility ⟨200, 200⟩ (0, 0) ⟨30, 40, 50, 30⟩ = none ∧
    ∃ p, ensureNoteVisibility ⟨200, 200⟩ (0, 0) ⟨5, 40, 50, 30⟩ = some p ∧
      insideBand ⟨200, 200⟩ (appliedRect (0, 0) ⟨5, 40, 50, 30⟩ p) := by
  constructor
  · exact (ensureNoteVisibility_clamps ⟨200, 200⟩ (0, 0) ⟨30, 40, 50, 30⟩
      (by decide) (by decide)).1 (by decide)
  · exact (ensureNoteVisibility_clamps ⟨200, 200⟩ (0, 0) ⟨5, 40, 50, 30⟩
      (by decide) (by decide)).2 (by decide)

/-! ### Model of note-editing.js, exitEditMode / autoSaveNote (lines 186-258, 606-646)

EditingState.autosaveTimeouts is a JS Map from noteId to the pending
debounce timer id; a Map preserves insertion order and Map.set on an
existing key replaces the value in place.  The model tracks the map as
an association list plus the synchronous updateNote call that a
save-exit issues. -/

/-- The noteElement._editingElements fields read by exitEditMode:
textarea.value when a textarea exists, and noteElement.dataset.noteId. -/
structure EditingElems where
  textarea : Option String
  noteId : Option String
  deriving DecidableEq, Repr

/-- JS Map.set: replace the value of an existing key in place, else
append. -/
def mapSet (k : String) (v : Nat) : List (String × Nat) → List (String × Nat)
  | [] => [(k, v)]
  | (k2, v2) :: rest => if k2 = k then (k, v) :: rest else (k2, v2) :: mapSet k v rest

/-- JS Map.delete on the association list. -/
def mapDelete (k : String) : List (String × Nat) → List (String × Nat)
  | [] => []
  | (k2, v2) :: rest => if k2 = k then rest else (k2, v2) :: mapDelete k rest

/-- JS Map.get. -/
def mapGet (k : String) : List (String × Nat) → Option Nat
  | [] => none
  | (k2, v2) :: rest => if k2 = k then some v2 else mapGet k rest

/-- autoSaveNote (note-editing.js lines 606-646): cancel any existing
debounce timer for the note and register a fresh one (the timer id is
supplied by setTimeout). -/
def autoSaveNote (timeouts : List (String × Nat)) (noteId : String) (timeoutId : Nat) :
    List (String × Nat) :=
  mapSet noteId timeoutId timeouts

/-- The effects of one exitEditMode call: the resulting pending-timer map
and the synchronous updateNote request (noteId, content) issued by a
save-exit, none otherwise. -/
structure ExitEffects where
  timeouts : List (String × Nat)
  directSave : Option (String × String)
  deriving DecidableEq, Repr

/-- exitEditMode (note-editing.js lines 186-258).  Only the save branch
(save and a live textarea and a noteId) issues an updateNote call and
clears the note's pending auto-save timer; with save = false the
function only tears down the editor UI and leaves the timer map
untouched. -/
def exitEditMode (timeouts : List (String × Nat)) (editing : Option EditingElems)
    (save : Bool) : ExitEffects :=
  match editing with
  | none => { timeouts := timeouts, directSave := none }
  | some els =>
    match save, els.textarea, els.noteId with
    | true, some content, some nid =>
      { timeouts :=
          match mapGet nid timeouts with
          | some _ => mapDelete nid timeouts
          | none => timeouts
        directSave := some (nid, content) }
    | _, _, _ => { timeouts := timeouts, directSave := none }

/-- C9 counterexample.  A note "n1" with a pending auto-save timer (id 7)
is being edited; the user presses Escape, so exitEditMode runs with
save = false.  The pending timer for "n1" is still registered afterwards
and no synchronous save was issued; the timer is neither flushed nor
cleared, refuting the claim that no pending auto-save timer remains after
cancellation. -/
theorem exitEditMode_cancel_leaves_timer :
    (exitEditMode [("n1", 7)] (some ⟨some "draft", some "n1"⟩) false).timeouts =
      [("n1", 7)] ∧
    mapGet "n1" (exitEditMode [("n1", 7)] (some ⟨some "draft", some "n1"⟩) false).timeouts =
      some 7 ∧
    (exitEditMode [("n1", 7)] (some ⟨some "draft", some "n1"⟩) false).directSave = none := by
  refine ⟨rfl, rfl, rfl⟩

/-- C9 amended.  Canceling an edit session with Escape (exitEditMode with
save = false) performs no save and does not touch the pending auto-save
timer map at all: a timer registered by autoSaveNote stays registered and
will still fire after the debounce delay.  Only a save-exit clears the
note's pending timer (replacing it with an immediate synchronous save). -/
theorem exitEditMode_cancel_keeps_timers (timeouts : List (String × Nat))
    (editing : Option EditingElems) :
    exitEditMode timeouts editing false = { timeouts := timeouts, directSave := none } ∧
    (∀ nid tid content,
      editing = some ⟨some content, some nid⟩ →
      mapGet nid (autoSaveNote timeouts nid tid) = some tid ∧
      (exitEditMode (autoSaveNote timeouts nid tid) editing false).timeouts =
        autoSaveNote timeouts nid tid) := by
  constructor
  · cases editing with
    | none => rfl
    | some els => rfl
  · intro nid tid content heq
    subst heq
    refine ⟨?_, rfl⟩
    unfold autoSaveNote
    induction timeouts with
    | nil => simp [mapSet, mapGet]
    | cons hd tl ih =>
      obtain ⟨k2, v2⟩ := hd
      by_cases hk : k2 = nid
      · subst hk
        simp [mapSet, mapGet]
      · simp [mapSet, mapGet, hk, ih]

/-- C9 amended witness: a concrete cancel with a pending timer keeps the
timer registered. -/
theorem exitEditMode_cancel_keeps_timers_witness :
    exitEditMode [("n2", 3)] (some ⟨some "body", some "n2"⟩) false =
      { timeouts := [("n2", 3)], directSave := none } ∧
    mapGet "n2" (autoSaveNote [] "n2" 3) = some 3 := by
  constructor
  · exact (exitEditMode_cancel_keeps_timers [("n2", 3)]
      (some ⟨some "body", some "n2"⟩)).1
  · exact ((exitEditMode_cancel_keeps_timers [] (some ⟨some "body", some "n2"⟩)).2
      "n2" 3 "body" rfl).1

/-! ### Model of selection-manager.js, findTextInElement (lines 288-318)

Strings are modeled as character lists (JS string indexing is exact on
the code units the source manipulates).  The container element is a tree
whose leaves are text nodes; createTreeWalker with SHOW_TEXT and no
filter visits all text nodes in document order. -/

/-- JS String.indexOf: the first index at which the pattern occurs, none
when the source returns -1.  indexOf of the empty string is 0. -/
def jsIndexOf (hay pat : List Char) : Option Nat :=
  if pat.isPrefixOf hay then some 0
  else
    match hay with
    | [] => none
    | _ :: tl => (jsIndexOf tl pat).map (· + 1)

/-- JS String.includes. -/
def jsIncludes (hay pat : List Char) : Bool := (jsIndexOf hay pat).isSome

/-- A container element: an element tree over text-node leaves. -/
inductive TextTree where
  | text : List Char → TextTree
  | elem : List TextTree → TextTree

mutual

/-- The text nodes of the subtree in document order, as visited by the
SHOW_TEXT tree walker. -/
def walkerTexts : TextTree → List (List Char)
  | .text s => [s]
  | .elem cs => walkerTextsList cs

def walkerTextsList : List TextTree → List (List Char)
  | [] => []
  | c :: rest => walkerTexts c ++ walkerTextsList rest

end

/-- The walker loop of findTextInElement, carrying the index of the
current text node: for each text node in order, first try the exact
concatenation contextBefore ++ text ++ contextAfter (position = match
index + contextBefore.length), else, in the same iteration, the bare
text (position = match index); only then move to the next node. -/
def locateTextFrom (t cb ca : List Char) : Nat → List (List Char) → Option (Nat × Nat)
  | _, [] => none
  | i, s :: rest =>
    match jsIndexOf s (cb ++ t ++ ca) with
    | some p => some (i, p + cb.length)
    | none =>
      match jsIndexOf s t with
      | some p => some (i, p)
      | none => locateTextFrom t cb ca (i + 1) rest

/-- findTextInElement: the result identifies the matched text node by its
position in walker order together with the character offset. -/
def findTextInElement (el : TextTree) (t cb ca : List Char) : Option (Nat × Nat) :=
  locateTextFrom t cb ca 0 (walkerTexts el)

/-- A container with two text nodes: the first contains only the bare
text, the second contains the full context concatenation. -/
def shadowTree : TextTree :=
  TextTree.elem [TextTree.text "xx".data, TextTree.text "a x b".data]

/-- C2 counterexample.  In shadowTree the second text node contains the
exact concatenation "a " ++ "x" ++ " b", so by the claim the locator must
return the context-qualified match (node 1, offset 2).  It instead
returns the bare-text match (node 0, offset 0): the bare-text fallback is
tried per node inside the single traversal, so a bare occurrence in an
earlier node shadows a context-qualified match in a later node. -/
theorem findTextInElement_bare_shadows_context :
    walkerTexts shadowTree = ["xx".data, "a x b".data] ∧
    jsIncludes "a x b".data ("a ".data ++ "x".data ++ " b".data) = true ∧
    findTextInElement shadowTree "x".data "a ".data " b".data = some (0, 0) ∧
    (0, 0) ≠ (1, 2) := by
  refine ⟨by decide, by decide, by decide, by decide⟩

theorem jsIncludes_false_iff {hay pat : List Char} :
    jsIncludes hay pat = false ↔ jsIndexOf hay pat = none := by
  unfold jsIncludes
  cases jsIndexOf hay pat <;> simp

theorem locateTextFrom_spec (t cb ca : List Char) (nodes : List (List Char)) (k i : Nat)
    (hi : i < nodes.length)
    (hbefore : ∀ j (hj : j < i),
      jsIncludes (nodes.get ⟨j, hj.trans hi⟩) (cb ++ t ++ ca) = false ∧
      jsIncludes (nodes.get ⟨j, hj.trans hi⟩) t = false) :
    (∀ q, jsIndexOf (nodes.get ⟨i, hi⟩) (cb ++ t ++ ca) = some q →
      locateTextFrom t cb ca k nodes = some (k + i, q + cb.length)) ∧
    (jsIndexOf (nodes.get ⟨i, hi⟩) (cb ++ t ++ ca) = none →
      ∀ q, jsIndexOf (nodes.get ⟨i, hi⟩) t = some q →
      locateTextFrom t cb ca k nodes = some (k + i, q)) := by
  induction nodes generalizing k i with
  | nil => exact absurd hi (by simp)
  | cons s rest ih =>
    cases i with
    | zero =>
      constructor
      · intro q hq
        simp only [List.get] at hq
        conv_lhs => rw [locateTextFrom]
        rw [hq]
        simp
      · intro hnone q hq
        simp only [List.get] at hnone hq
        conv_lhs => rw [locateTextFrom]
        rw [hnone, hq]
        simp
    | succ i2 =>
      have hs := hbefore 0 (Nat.zero_lt_succ i2)
      simp only [List.get] at hs
      have hs1 : jsIndexOf s (cb ++ t ++ ca) = none := jsIncludes_false_iff.mp hs.1
      have hs2 : jsIndexOf s t = none := jsIncludes_false_iff.mp hs.2
      have hi2 : i2 < rest.length := Nat.lt_of_succ_lt_succ hi
      have hbefore2 : ∀ j (hj : j < i2),
          jsIncludes (rest.get ⟨j, hj.trans hi2⟩) (cb ++ t ++ ca) = false ∧
          jsIncludes (rest.get ⟨j, hj.trans hi2⟩) t = false := by
        intro j hj
        have := hbefore (j + 1) (Nat.succ_lt_succ hj)
        simpa using this
      have hrec := ih (k + 1) i2 hi2 hbefore2
      have hunf : locateTextFrom t cb ca k (s :: rest) =
          locateTextFrom t cb ca (k + 1) rest := by
        conv_lhs => rw [locateTextFrom]
        rw [hs1, hs2]
      have harith : k + 1 + i2 = k + (i2 + 1) := by omega
      constructor
      · intro q hq
        simp only [List.get] at hq
        rw [hunf, ← harith]
        exact hrec.1 q hq
      · intro hnone q hq
        simp only [List.get] at hnone hq
        rw [hunf, ← harith]
        exact hrec.2 hnone q hq

/-- C2 amended.  The locator returns, for the first text node (in
traversal order) containing either the exact concatenation
contextBefore ++ text ++ contextAfter or the bare text, the
context-qualified position (match index plus length of contextBefore)
when that node contains the concatenation, and the bare-text position
otherwise; the context preference applies only within each node, so a
bare-text occurrence in an earlier node takes precedence over a
context-qualified match in a later node. -/
theorem findTextInElement_first_hit (el : TextTree) (t cb ca : List Char) (i : Nat)
    (hi : i < (walkerTexts el).length)
    (hbefore : ∀ j (hj : j < i),
      jsIncludes ((walkerTexts el).get ⟨j, hj.trans hi⟩) (cb ++ t ++ ca) = false ∧
      jsIncludes ((walkerTexts el).get ⟨j, hj.trans hi⟩) t = false) :
    (∀ q, jsIndexOf ((walkerTexts el).get ⟨i, hi⟩) (cb ++ t ++ ca) = some q →
      findTextInElement el t cb ca = some (i, q + cb.length)) ∧
    (jsIndexOf ((walkerTexts el).get ⟨i, hi⟩) (cb ++ t ++ ca) = none →
      ∀ q, jsIndexOf ((walkerTexts el).get ⟨i, hi⟩) t = some q →
      findTextInElement el t cb ca = some (i, q)) := by
  have h := locateTextFrom_spec t cb ca (walkerTexts el) 0 i hi hbefore
  simpa [findTextInElement] using h

/-- C2 amended witness: on shadowTree (bare "x" in node 0, full context
in node 1) the first hit is node 0 with the bare position. -/
theorem findTextInElement_first_hit_witness :
    findTextInElement shadowTree "x".data "a ".data " b".data = some (0, 0) := by
  have h := findTextInElement_first_hit shadowTree "x".data "a ".data " b".data 0
    (by decide) (by intro j hj; exact absurd hj (Nat.not_lt_zero j))
  exact h.2 (by decide) 0 (by decide)

/-! ### Model of dom-selectors.js (selector generation, resolution, cache)

Elements are nodes of a tree rooted at the documentElement; each carries
a numeric reference identity (JS object identity), its localName (tag),
its id attribute ("" when absent, which is falsy in the source) and its
class list.  Selector strings are represented by their abstract syntax
(the source builds them structurally and the browser parses them back);
a rendering function produces the concrete strings used for cache keys
and for the validateXPath string check.  querySelector and
document.evaluate with FIRST_ORDERED_NODE_TYPE return the first match in
document (pre-)order. -/

/-- The element attributes read by the selector code. -/
structure ElemData where
  tag : String
  idAttr : String
  classes : List String
  deriving DecidableEq, Repr

/-- A DOM element subtree; the Nat is the element's reference identity. -/
inductive Dom where
  | node : Nat → ElemData → List Dom → Dom

/-- Reference identity of the root element of a subtree. -/
def Dom.ref : Dom → Nat
  | .node r _ _ => r

/-- Attributes of the root element of a subtree. -/
def Dom.info : Dom → ElemData
  | .node _ d _ => d

/-- Element children. -/
def Dom.children : Dom → List Dom
  | .node _ _ cs => cs

/-- A located element: the subtree together with its ancestor frames,
nearest first; each frame is the ancestor subtree paired with the child
index through which the location descends. -/
abbrev Loc := Dom × List (Dom × Nat)

mutual

/-- Document-order (preorder) enumeration of the subtree's elements with
their ancestor frames. -/
def enumFrom (frames : List (Dom × Nat)) : Dom → List Loc
  | .node r d cs => (Dom.node r d cs, frames) :: enumChildren (Dom.node r d cs) frames 0 cs

def enumChildren (p : Dom) (frames : List (Dom × Nat)) (i : Nat) : List Dom → List Loc
  | [] => []
  | c :: rest => enumFrom ((p, i) :: frames) c ++ enumChildren p frames (i + 1) rest

end

/-- All elements of the document in document order. -/
def docEnum (root : Dom) : List Loc := enumFrom [] root

/-- The reference identities present in the document. -/
def docRefs (root : Dom) : List Nat := (docEnum root).map (fun l => l.1.ref)

/-- document.contains on an element reference. -/
def attached (root : Dom) (r : Nat) : Bool := (docRefs root).contains r

/-- Locate the element with the given reference. -/
def findLoc (root : Dom) (r : Nat) : Option Loc :=
  (docEnum root).find? (fun l => l.1.ref == r)

/-- The element's 1-based position among all children of its parent
(CSS :nth-child semantics); the documentElement is its document's single
element child. -/
def Loc.nthChild (l : Loc) : Nat :=
  match l.2 with
  | [] => 1
  | (_, i) :: _ => i + 1

/-- The element's 1-based position among the same-tagName children of its
parent, as computed both by generateXPath's preceding-sibling walk and by
generateCSSSelector's indexOf into the filtered sibling list. -/
def Loc.sameTagIndex (l : Loc) : Nat :=
  match l.2 with
  | [] => 1
  | (p, i) :: _ =>
    ((p.children.take i).filter (fun c => c.info.tag == l.1.info.tag)).length + 1

/-- The number of same-tagName children of the element's parent. -/
def Loc.sameTagCount (l : Loc) : Nat :=
  match l.2 with
  | [] => 1
  | (p, _) :: _ => (p.children.filter (fun c => c.info.tag == l.1.info.tag)).length

/-- The parent element's location. -/
def Loc.parentLoc (l : Loc) : Option Loc :=
  match l.2 with
  | [] => none
  | (p, _) :: rest => some (p, rest)

/-- One segment of a generated CSS selector path. -/
structure SimpleSel where
  tag : String
  idSel : Option String
  classes : List String
  nthChild : Option Nat
  deriving DecidableEq, Repr

/-- A CSS selector path: segments outermost-first, joined by the child
combinator " > ". -/
abbrev CssSel := List SimpleSel

/-- Whether one segment matches an element (HTML tag matching is
case-insensitive against the lowercase selector; an id selector matches
the id attribute; every listed class must be present; :nth-child counts
all children). -/
def matchesSimple (l : Loc) (s : SimpleSel) : Bool :=
  jsToLower l.1.info.tag == s.tag &&
  (match s.idSel with
   | none => true
   | some i => l.1.info.idAttr == i) &&
  s.classes.all (fun c => l.1.info.classes.contains c) &&
  (match s.nthChild with
   | none => true
   | some n => l.nthChild == n)

/-- Whether a child-combinator chain, given innermost-first, matches an
element through its parent chain. -/
def matchesChainRev : List SimpleSel → Loc → Bool
  | [], _ => true
  | s :: rest, l =>
    matchesSimple l s &&
    (match rest with
     | [] => true
     | _ =>
       match l.parentLoc with
       | some pl => matchesChainRev rest pl
       | none => false)

/-- document.querySelector: the first element in document order matched
by the chain anywhere in the tree (the empty selector string throws,
which every caller catches and treats as a miss). -/
def querySelector (root : Dom) (sel : CssSel) : Option Nat :=
  if sel.isEmpty then none
  else ((docEnum root).find? (fun l => matchesChainRev sel.reverse l)).map (fun l => l.1.ref)

/-- isIdUnique (dom-selectors.js lines 375-386): querySelectorAll on the
escaped id finds exactly one element. -/
def isIdUnique (root : Dom) (id : String) : Bool :=
  if id == "" then false
  else ((docEnum root).filter (fun l => l.1.info.idAttr == id)).length == 1

/-- isValidCSSClass (dom-selectors.js lines 393-405): the anchored regex
/^[a-zA-Z][a-zA-Z0-9_-]*$/ plus a 50-character bound. -/
def isValidCSSClass (c : String) : Bool :=
  match c.data with
  | [] => false
  | h :: rest =>
    h.isAlpha && rest.all (fun x => x.isAlphanum || x == '_' || x == '-') &&
      decide (c.length ≤ 50)

/-- A generated XPath: segments outermost-first, each a lowercased tag
with a 1-based same-tagName sibling index, rendered as
//tag[i]/tag[j]/... . -/
abbrev XPathSegs := List (String × Nat)

/-- Whether an XPath path, given innermost-first, matches an element:
each segment constrains the tag and the same-tagName sibling position,
and the leading // places the outermost segment at any depth. -/
def xpathMatchesRev : List (String × Nat) → Loc → Bool
  | [], _ => true
  | (t, n) :: rest, l =>
    jsToLower l.1.info.tag == t && l.sameTagIndex == n &&
    (match rest with
     | [] => true
     | _ =>
       match l.parentLoc with
       | some pl => xpathMatchesRev rest pl
       | none => false)

/-- document.evaluate with XPathResult.FIRST_ORDERED_NODE_TYPE: the first
matching element in document order. -/
def xpathEval (root : Dom) (segs : XPathSegs) : Option Nat :=
  if segs.isEmpty then none
  else ((docEnum root).find? (fun l => xpathMatchesRev segs.reverse l)).map (fun l => l.1.ref)

/-- Render one CSS segment to its selector string. -/
def renderSimple (s : SimpleSel) : String :=
  s.tag ++
  (match s.idSel with
   | some i => "#" ++ i
   | none => "") ++
  String.join (s.classes.map (fun c => "." ++ c)) ++
  (match s.nthChild with
   | some n => ":nth-child(" ++ toString n ++ ")"
   | none => "")

/-- Render a CSS path with the child combinator. -/
def renderCss (sel : CssSel) : String := String.intercalate " > " (sel.map renderSimple)

/-- Render an XPath as //tag[i]/tag[j]/... . -/
def renderXPath (segs : XPathSegs) : String :=
  "//" ++ String.intercalate "/" (segs.map (fun p => p.1 ++ "[" ++ toString p.2 ++ "]"))

/-- One character of the safe-XPath regex class
[\w\[\]@='"\s\d\-_\.\/\(\)] . -/
def safeXPathChar (c : Char) : Bool :=
  c.isAlphanum || c == '_' || c == '[' || c == ']' || c == '@' || c == '=' ||
  c == '\'' || c == '"' || isJsSpace c || c == '-' || c == '.' || c == '/' ||
  c == '(' || c == ')'

/-- The anchored pattern /^\/\/?\*?[class]*$/ of validateXPath. -/
def safeXPathPattern (s : String) : Bool :=
  match s.data with
  | '/' :: rest =>
    let rest2 :=
      match rest with
      | '/' :: r2 => r2
      | _ => rest
    let rest3 :=
      match rest2 with
      | '*' :: r3 => r3
      | _ => rest2
    rest3.all safeXPathChar
  | _ => false

/-- Does the predicate hold of some suffix of the list (regex search
position)? -/
def anySuffix (p : List Char → Bool) : List Char → Bool
  | [] => p []
  | c :: rest => p (c :: rest) || anySuffix p rest

/-- After a matched word: \s* then an opening parenthesis. -/
def afterWsParen : List Char → Bool
  | [] => false
  | c :: rest => if isJsSpace c then afterWsParen rest else c == '('

/-- A regex of the form /word\s*\(/ applied at every position. -/
def wordWsParen (w : List Char) (s : List Char) : Bool :=
  anySuffix (fun suf => w.isPrefixOf suf && afterWsParen (suf.drop w.length)) s

/-- The regex word class \w. -/
def isWordChar (c : Char) : Bool := c.isAlphanum || c == '_'

/-- After on\w: more word characters, then \s*, then '='. -/
def wsEqAfter (l : List Char) : Bool :=
  match l.dropWhile isJsSpace with
  | '=' :: _ => true
  | _ => false

/-- The regex /on\w+\s*=/ applied at every position of a lowercased
string. -/
def onAttrPattern (s : List Char) : Bool :=
  anySuffix
    (fun suf =>
      match suf with
      | 'o' :: 'n' :: c :: rest => isWordChar c && wsEqAfter ((c :: rest).dropWhile isWordChar)
      | _ => false) s

/-- validateXPath (selection-manager.js lines 75-106): the conservative
shape pattern plus the absence of every dangerous pattern (the /i
patterns are checked on the lowercased string). -/
def validateXPath (s : String) : Bool :=
  if s == "" then false
  else
    safeXPathPattern s &&
    !(wordWsParen "document".data s.data) &&
    !(wordWsParen "eval".data s.data) &&
    !(wordWsParen "script".data s.data) &&
    !(jsIncludes (s.data.map jsCharToLower) "javascript:".data) &&
    !(jsIncludes (s.data.map jsCharToLower) "data:".data) &&
    !(jsIncludes (s.data.map jsCharToLower) "<script".data) &&
    !(onAttrPattern (s.data.map jsCharToLower))

/-- The per-element loop body and upward walk of generateCSSSelector
(dom-selectors.js lines 234-289), from the given element up to but not
including the documentElement, building the path outermost-first.  A
document-unique id ends the walk with a tag#id segment; otherwise the
segment carries up to three sanitized classes and an nth-child index
(computed as the position among same-tagName siblings) added only when
same-tagName siblings exist. -/
def buildCssPath (root : Dom) : Dom → List (Dom × Nat) → List SimpleSel
  | e, frames =>
    if e.info.idAttr != "" && isIdUnique root e.info.idAttr then
      [{ tag := jsToLower e.info.tag, idSel := some e.info.idAttr,
         classes := [], nthChild := none }]
    else
      let seg : SimpleSel :=
        match frames with
        | [] =>
          { tag := jsToLower e.info.tag, idSel := none,
            classes := (e.info.classes.filter isValidCSSClass).take 3, nthChild := none }
        | (p, i) :: _ =>
          let sibs := p.children.filter (fun c => c.info.tag == e.info.tag)
          { tag := jsToLower e.info.tag, idSel := none,
            classes := (e.info.classes.filter isValidCSSClass).take 3,
            nthChild :=
              if 1 < sibs.length then
                some (((p.children.take i).filter
                  (fun c => c.info.tag == e.info.tag)).length + 1)
              else none }
      match frames with
      | [] => [seg]
      | (p, _) :: rest =>
        match rest with
        | [] => [seg]
        | _ => buildCssPath root p rest ++ [seg]

/-- generateCSSSelector: null for a missing element and for the
documentElement itself. -/
def generateCSSSelector (root : Dom) (r : Nat) : Option CssSel :=
  match findLoc root r with
  | none => none
  | some l => if l.2.isEmpty then none else some (buildCssPath root l.1 l.2)

/-- The upward walk of generateRobustCSSSelector (dom-selectors.js lines
296-327): tag plus an absolute :nth-child index at every level. -/
def buildRobustPath : Dom → List (Dom × Nat) → List SimpleSel
  | e, frames =>
    let seg : SimpleSel :=
      { tag := jsToLower e.info.tag, idSel := none, classes := [],
        nthChild :=
          match frames with
          | [] => none
          | (_, i) :: _ => some (i + 1) }
    match frames with
    | [] => [seg]
    | (p, _) :: rest =>
      match rest with
      | [] => [seg]
      | _ => buildRobustPath p rest ++ [seg]

/-- generateRobustCSSSelector. -/
def generateRobustCSSSelector (root : Dom) (r : Nat) : Option CssSel :=
  match findLoc root r with
  | none => none
  | some l => if l.2.isEmpty then none else some (buildRobustPath l.1 l.2)

/-- The upward walk of generateXPath (dom-selectors.js lines 334-368):
lowercased tag with a 1-based same-tagName preceding-sibling count at
every level below the documentElement. -/
def buildXPath : Dom → List (Dom × Nat) → XPathSegs
  | e, frames =>
    let idx :=
      match frames with
      | [] => 1
      | (p, i) :: _ =>
        ((p.children.take i).filter (fun c => c.info.tag == e.info.tag)).length + 1
    let seg := (jsToLower e.info.tag, idx)
    match frames with
    | [] => [seg]
    | (p, _) :: rest =>
      match rest with
      | [] => [seg]
      | _ => buildXPath p rest ++ [seg]

/-- generateXPath. -/
def generateXPath (root : Dom) (r : Nat) : Option XPathSegs :=
  match findLoc root r with
  | none => none
  | some l => if l.2.isEmpty then none else some (buildXPath l.1 l.2)

/-- generateOptimalSelector (dom-selectors.js lines 183-227): try the CSS
path validated by identity of its unique query result, then the XPath
validated the same way (guarded by validateXPath), then the robust CSS
path, and as a last resort return the unvalidated best-effort pair. -/
def generateOptimalSelector (root : Dom) (r : Nat) : Option CssSel × Option XPathSegs :=
  match findLoc root r with
  | none => (none, none)
  | some _ =>
    let css := generateCSSSelector root r
    let xp := generateXPath root r
    let cssOk :=
      match css with
      | some c => querySelector root c == some r
      | none => false
    if cssOk then (css, xp)
    else
      let xpOk :=
        match xp with
        | some x => validateXPath (renderXPath x) && (xpathEval root x == some r)
        | none => false
      if xpOk then (none, xp)
      else
        let rob := generateRobustCSSSelector root r
        let robOk :=
          match rob with
          | some c => querySelector root c == some r
          | none => false
        if robOk then (rob, xp)
        else (css, xp)

/-- The element cache: a JS Map from the serialized selector key to the
cached element reference (insertion-ordered, keys unique). -/
abbrev ElementCache := List (String × Nat)

/-- CACHE_SIZE_LIMIT. -/
def CACHE_SIZE_LIMIT : Nat := 500

/-- The cache key of findElementBySelector: css string, underscore,
xpath string, with empty strings for null fields. -/
def cacheKey (css : Option CssSel) (xp : Option XPathSegs) : String :=
  (match css with
   | some c => renderCss c
   | none => "") ++ "_" ++
  (match xp with
   | some x => renderXPath x
   | none => "")

/-- cacheElement (dom-selectors.js lines 99-113): when the cache is at
capacity, evict the oldest quarter by insertion order, then Map.set. -/
def cacheElement (cache : ElementCache) (key : String) (r : Nat) : ElementCache :=
  let cache2 :=
    if CACHE_SIZE_LIMIT ≤ cache.length then cache.drop (CACHE_SIZE_LIMIT / 4) else cache
  mapSet key r cache2

/-- The XPath fallback branch of findElementBySelector. -/
def findXp (root : Dom) (cache : ElementCache) (xp : Option XPathSegs) (key : String) :
    Option Nat × ElementCache :=
  match xp with
  | some x =>
    if validateXPath (renderXPath x) then
      match xpathEval root x with
      | some el => (some el, cacheElement cache key el)
      | none => (none, cache)
    else (none, cache)
  | none => (none, cache)

/-- The query branches of findElementBySelector: CSS first, then the
validated XPath. -/
def findCore (root : Dom) (cache : ElementCache) (css : Option CssSel)
    (xp : Option XPathSegs) (key : String) : Option Nat × ElementCache :=
  match css with
  | some c =>
    match querySelector root c with
    | some el => (some el, cacheElement cache key el)
    | none => findXp root cache xp key
  | none => findXp root cache xp key

/-- findElementBySelector (dom-selectors.js lines 31-92): cache fast path
validated by document.contains, lazy deletion of a stale entry, then CSS
query, then validated XPath, with every successful query cached. -/
def findElementBySelector (root : Dom) (cache : ElementCache) (css : Option CssSel)
    (xp : Option XPathSegs) : Option Nat × ElementCache :=
  let key := cacheKey css xp
  match mapGet key cache with
  | some cachedRef =>
    if attached root cachedRef then (some cachedRef, cache)
    else findCore root (mapDelete key cache) css xp key
  | none => findCore root cache css xp key

/-! Supporting lemmas: Map operations and query soundness. -/

theorem mapGet_mapSet_self (k : String) (v : Nat) (l : List (String × Nat)) :
    mapGet k (mapSet k v l) = some v := by
  induction l with
  | nil => simp [mapSet, mapGet]
  | cons hd tl ih =>
    obtain ⟨k2, v2⟩ := hd
    by_cases hk : k2 = k
    · simp [mapSet, mapGet, hk]
    · simp [mapSet, mapGet, hk, ih]

theorem mapGet_eq_none_of_not_mem {k : String} {l : List (String × Nat)}
    (h : k ∉ l.map Prod.fst) : mapGet k l = none := by
  induction l with
  | nil => rfl
  | cons hd tl ih =>
    obtain ⟨k2, v2⟩ := hd
    simp only [List.map_cons, List.mem_cons] at h
    push_neg at h
    simp [mapGet, Ne.symm h.1, ih h.2]

theorem mapGet_mapDelete_self {k : String} {l : List (String × Nat)}
    (h : (l.map Prod.fst).Nodup) : mapGet k (mapDelete k l) = none := by
  induction l with
  | nil => rfl
  | cons hd tl ih =>
    obtain ⟨k2, v2⟩ := hd
    simp only [List.map_cons, List.nodup_cons] at h
    by_cases hk : k2 = k
    · subst hk
      simp only [mapDelete, if_pos rfl]
      exact mapGet_eq_none_of_not_mem h.1
    · simp [mapDelete, hk, mapGet, Ne.symm hk, ih h.2]

theorem mapDelete_keys_sublist (k : String) (l : List (String × Nat)) :
    ((mapDelete k l).map Prod.fst).Sublist (l.map Prod.fst) := by
  induction l with
  | nil => simp [mapDelete]
  | cons hd tl ih =>
    obtain ⟨k2, v2⟩ := hd
    by_cases hk : k2 = k
    · simp only [mapDelete, if_pos hk, List.map_cons]
      exact List.sublist_cons_self _ _
    · simp only [mapDelete, if_neg hk, List.map_cons]
      exact ih.cons₂ _

theorem querySelector_attached {root : Dom} {c : CssSel} {r : Nat}
    (h : querySelector root c = some r) : attached root r = true := by
  unfold querySelector at h
  split at h
  · exact absurd h (by simp)
  · obtain ⟨l, hl, hlr⟩ := Option.map_eq_some'.mp h
    have hmem := List.mem_of_find?_eq_some hl
    have : r ∈ docRefs root := by
      unfold docRefs
      exact List.mem_map.mpr ⟨l, hmem, hlr⟩
    simpa [attached] using this

theorem xpathEval_attached {root : Dom} {x : XPathSegs} {r : Nat}
    (h : xpathEval root x = some r) : attached root r = true := by
  unfold xpathEval at h
  split at h
  · exact absurd h (by simp)
  · obtain ⟨l, hl, hlr⟩ := Option.map_eq_some'.mp h
    have hmem := List.mem_of_find?_eq_some hl
    have : r ∈ docRefs root := by
      unfold docRefs
      exact List.mem_map.mpr ⟨l, hmem, hlr⟩
    simpa [attached] using this

theorem mapGet_cacheElement_self (cache : ElementCache) (key : String) (r : Nat) :
    mapGet key (cacheElement cache key r) = some r := by
  unfold cacheElement
  exact mapGet_mapSet_self key r _

theorem findXp_sound (root : Dom) (cache : ElementCache) (xp : Option XPathSegs)
    (key : String) (hkey : mapGet key cache = none) :
    (∀ r, (findXp root cache xp key).1 = some r → attached root r = true) ∧
    (∀ r, mapGet key (findXp root cache xp key).2 = some r → attached root r = true) := by
  cases xp with
  | none =>
    have he : findXp root cache none key = (none, cache) := rfl
    rw [he]
    refine ⟨fun r hr => absurd hr (by simp), fun r hr => ?_⟩
    rw [hkey] at hr
    exact absurd hr (by simp)
  | some x =>
    by_cases hv : validateXPath (renderXPath x) = true
    · cases hev : xpathEval root x with
      | some el =>
        have he : findXp root cache (some x) key = (some el, cacheElement cache key el) := by
          unfold findXp
          dsimp only
          rw [if_pos hv, hev]
        rw [he]
        refine ⟨fun r hr => ?_, fun r hr => ?_⟩
        · simp only [Option.some_inj] at hr
          exact hr ▸ xpathEval_attached hev
        · rw [mapGet_cacheElement_self] at hr
          simp only [Option.some_inj] at hr
          exact hr ▸ xpathEval_attached hev
      | none =>
        have he : findXp root cache (some x) key = (none, cache) := by
          unfold findXp
          dsimp only
          rw [if_pos hv, hev]
        rw [he]
        refine ⟨fun r hr => absurd hr (by simp), fun r hr => ?_⟩
        rw [hkey] at hr
        exact absurd hr (by simp)
    · have he : findXp root cache (some x) key = (none, cache) := by
        unfold findXp
        dsimp only
        rw [if_neg hv]
      rw [he]
      refine ⟨fun r hr => absurd hr (by simp), fun r hr => ?_⟩
      rw [hkey] at hr
      exact absurd hr (by simp)

theorem findCore_sound (root : Dom) (cache : ElementCache) (css : Option CssSel)
    (xp : Option XPathSegs) (key : String) (hkey : mapGet key cache = none) :
    (∀ r, (findCore root cache css xp key).1 = some r → attached root r = true) ∧
    (∀ r, mapGet key (findCore root cache css xp key).2 = some r →
      attached root r = true) := by
  cases css with
  | none =>
    have he : findCore root cache none xp key = findXp root cache xp key := rfl
    rw [he]
    exact findXp_sound root cache xp key hkey
  | some c =>
    cases hq : querySelector root c with
    | some el =>
      have he : findCore root cache (some c) xp key =
          (some el, cacheElement cache key el) := by
        unfold findCore
        dsimp only
        rw [hq]
      rw [he]
      refine ⟨fun r hr => ?_, fun r hr => ?_⟩
      · simp only [Option.some_inj] at hr
        exact hr ▸ querySelector_attached hq
      · rw [mapGet_cacheElement_self] at hr
        simp only [Option.some_inj] at hr
        exact hr ▸ querySelector_attached hq
    | none =>
      have he : findCore root cache (some c) xp key = findXp root cache xp key := by
        unfold findCore
        dsimp only
        rw [hq]
      rw [he]
      exact findXp_sound root cache xp key hkey

/-- C5.  The resolver never returns a detached element: the cached node
is returned only after a document.contains check, a stale entry under
the looked-up key is deleted, and any element found by the CSS or XPath
query is by construction attached; moreover after the call the looked-up
key is either absent from the cache or bound to an attached element. -/
theorem findElementBySelector_never_detached (root : Dom) (cache : ElementCache)
    (css : Option CssSel) (xp : Option XPathSegs)
    (hw : (cache.map Prod.fst).Nodup) :
    (∀ r, (findElementBySelector root cache css xp).1 = some r →
      attached root r = true) ∧
    (∀ r, mapGet (cacheKey css xp) (findElementBySelector root cache css xp).2 = some r →
      attached root r = true) := by
  cases hget : mapGet (cacheKey css xp) cache with
  | some cachedRef =>
    by_cases hatt : attached root cachedRef = true
    · have he : findElementBySelector root cache css xp = (some cachedRef, cache) := by
        unfold findElementBySelector
        dsimp only
        rw [hget]
        dsimp only
        rw [if_pos hatt]
      rw [he]
      refine ⟨fun r hr => ?_, fun r hr => ?_⟩
      · simp only [Option.some_inj] at hr
        exact hr ▸ hatt
      · rw [hget] at hr
        simp only [Option.some_inj] at hr
        exact hr ▸ hatt
    · have he : findElementBySelector root cache css xp =
          findCore root (mapDelete (cacheKey css xp) cache) css xp (cacheKey css xp) := by
        unfold findElementBySelector
        dsimp only
        rw [hget]
        dsimp only
        rw [if_neg hatt]
      rw [he]
      exact findCore_sound root (mapDelete (cacheKey css xp) cache) css xp (cacheKey css xp)
        (mapGet_mapDelete_self hw)
  | none =>
    have he : findElementBySelector root cache css xp =
        findCore root cache css xp (cacheKey css xp) := by
      unfold findElementBySelector
      dsimp only
      rw [hget]
    rw [he]
    exact findCore_sound root cache css xp (cacheKey css xp) hget

/-- A small well-formed document: html with a head and a body holding two
paragraphs, the second carrying a unique id. -/
def okDoc : Dom :=
  Dom.node 0 ⟨"html", "", []⟩ [
    Dom.node 1 ⟨"head", "", []⟩ [],
    Dom.node 2 ⟨"body", "", []⟩ [
      Dom.node 3 ⟨"p", "", ["intro"]⟩ [],
      Dom.node 4 ⟨"p", "x1", []⟩ []]]

/-- C5 witness.  A cache whose entry for the selector pair of paragraph 3
points at the detached reference 99: the resolver deletes the stale
entry, re-queries, returns the attached paragraph and leaves the key
bound to it. -/
theorem findElementBySelector_never_detached_witness :
    (([(cacheKey (generateOptimalSelector okDoc 3).1 (generateOptimalSelector okDoc 3).2,
        99)] : ElementCache).map Prod.fst).Nodup ∧
    attached okDoc 99 = false ∧
    attached okDoc 3 = true := by
  refine ⟨by decide, by decide, ?_⟩
  exact (findElementBySelector_never_detached okDoc
    [(cacheKey (generateOptimalSelector okDoc 3).1 (generateOptimalSelector okDoc 3).2, 99)]
    (generateOptimalSelector okDoc 3).1 (generateOptimalSelector okDoc 3).2
    (by decide)).1 3 (by decide)

/-- A legal DOM (buildable through createElement/appendChild) in which a
div inside a nested body aliases every selector generated for the div
inside the top-level body: element 4 precedes element 6 in document
order and matches the same css path "body > div", the same xpath
"//body[1]/div[1]" and the same robust path
"body:nth-child(2) > div:nth-child(1)". -/
def ceDoc : Dom :=
  Dom.node 0 ⟨"html", "", []⟩ [
    Dom.node 1 ⟨"div", "", []⟩ [
      Dom.node 2 ⟨"span", "", []⟩ [],
      Dom.node 3 ⟨"body", "", []⟩ [Dom.node 4 ⟨"div", "", []⟩ []]],
    Dom.node 5 ⟨"body", "", []⟩ [Dom.node 6 ⟨"div", "", []⟩ []]]

/-- C1 counterexample.  Element 6 is attached and is not the document
root, the document does not change between the two calls and the cache
is empty, yet resolving the generated selector pair returns element 4:
all three validation attempts inside generateOptimalSelector fail (each
candidate selector's first match in document order is element 4), the
function returns the unvalidated best-effort pair with its warning, and
the resolver then answers the query with element 4. -/
theorem roundtrip_fails_on_aliased_structure :
    attached ceDoc 6 = true ∧
    Dom.ref ceDoc ≠ 6 ∧
    (findElementBySelector ceDoc [] (generateOptimalSelector ceDoc 6).1
      (generateOptimalSelector ceDoc 6).2).1 = some 4 ∧
    (4 : Nat) ≠ 6 := by
  refine ⟨by decide, by decide, by decide, by decide⟩

/-- The validation performed inside generateOptimalSelector succeeded for
at least one of the three candidate selectors: its unique query result is
the original element. -/
def generationValidated (root : Dom) (r : Nat) : Bool :=
  (match generateCSSSelector root r with
   | some c => querySelector root c == some r
   | none => false) ||
  (match generateXPath root r with
   | some x => validateXPath (renderXPath x) && (xpathEval root x == some r)
   | none => false) ||
  (match generateRobustCSSSelector root r with
   | some c => querySelector root c == some r
   | none => false)

/-- The branch structure of generateOptimalSelector: either one of the
three validated branches returned, or no validation succeeded and the
best-effort pair is returned. -/
theorem generateOptimalSelector_spec (root : Dom) (r : Nat) :
    (∃ c, generateCSSSelector root r = some c ∧ querySelector root c = some r ∧
      generateOptimalSelector root r = (some c, generateXPath root r)) ∨
    (∃ x, generateXPath root r = some x ∧ validateXPath (renderXPath x) = true ∧
      xpathEval root x = some r ∧ generateOptimalSelector root r = (none, some x)) ∨
    (∃ c, generateRobustCSSSelector root r = some c ∧ querySelector root c = some r ∧
      generateOptimalSelector root r = (some c, generateXPath root r)) ∨
    (generationValidated root r = false ∧
      generateOptimalSelector root r = (generateCSSSelector root r, generateXPath root r)) := by
  cases hfl : findLoc root r with
  | none =>
    have hcss : generateCSSSelector root r = none := by
      unfold generateCSSSelector
      rw [hfl]
    have hxp : generateXPath root r = none := by
      unfold generateXPath
      rw [hfl]
    have hrob : generateRobustCSSSelector root r = none := by
      unfold generateRobustCSSSelector
      rw [hfl]
    refine Or.inr (Or.inr (Or.inr ⟨?_, ?_⟩))
    · unfold generationValidated
      rw [hcss, hxp, hrob]
      rfl
    · unfold generateOptimalSelector
      rw [hfl, hcss, hxp]
  | some l =>
    have hopt : generateOptimalSelector root r =
        (let css := generateCSSSelector root r
         let xp := generateXPath root r
         let cssOk :=
           match css with
           | some c => querySelector root c == some r
           | none => false
         if cssOk then (css, xp)
         else
           let xpOk :=
             match xp with
             | some x => validateXPath (renderXPath x) && (xpathEval root x == some r)
             | none => false
           if xpOk then (none, xp)
           else
             let rob := generateRobustCSSSelector root r
             let robOk :=
               match rob with
               | some c => querySelector root c == some r
               | none => false
             if robOk then (rob, xp)
             else (css, xp)) := by
      unfold generateOptimalSelector
      rw [hfl]
    by_cases hcssOk : (match generateCSSSelector root r with
        | some c => querySelector root c == some r
        | none => false) = true
    · obtain ⟨c, hc, hqc⟩ :
          ∃ c, generateCSSSelector root r = some c ∧ querySelector root c = some r := by
        cases hg : generateCSSSelector root r with
        | none => rw [hg] at hcssOk; exact absurd hcssOk (by simp)
        | some c =>
          rw [hg] at hcssOk
          exact ⟨c, rfl, by simpa using hcssOk⟩
      refine Or.inl ⟨c, hc, hqc, ?_⟩
      rw [hopt]
      dsimp only
      rw [if_pos hcssOk, hc]
    · have hcssOk2 : (match generateCSSSelector root r with
          | some c => querySelector root c == some r
          | none => false) = false := by
        simpa using hcssOk
      by_cases hxpOk : (match generateXPath root r with
          | some x => validateXPath (renderXPath x) && (xpathEval root x == some r)
          | none => false) = true
      · obtain ⟨x, hx, hvx, hex⟩ : ∃ x, generateXPath root r = some x ∧
            validateXPath (renderXPath x) = true ∧ xpathEval root x = some r := by
          cases hg : generateXPath root r with
          | none => rw [hg] at hxpOk; exact absurd hxpOk (by simp)
          | some x =>
            rw [hg] at hxpOk
            simp only [Bool.and_eq_true, beq_iff_eq] at hxpOk
            exact ⟨x, rfl, hxpOk.1, hxpOk.2⟩
        refine Or.inr (Or.inl ⟨x, hx, hvx, hex, ?_⟩)
        rw [hopt]
        dsimp only
        rw [if_neg (by rw [hcssOk2]; simp), if_pos hxpOk, hx]
      · have hxpOk2 : (match generateXPath root r with
            | some x => validateXPath (renderXPath x) && (xpathEval root x == some r)
            | none => false) = false := by
          simpa using hxpOk
        by_cases hrobOk : (match generateRobustCSSSelector root r with
            | some c => querySelector root c == some r
            | none => false) = true
        · obtain ⟨c, hc, hqc⟩ : ∃ c, generateRobustCSSSelector root r = some c ∧
              querySelector root c = some r := by
            cases hg : generateRobustCSSSelector root r with
            | none => rw [hg] at hrobOk; exact absurd hrobOk (by simp)
            | some c =>
              rw [hg] at hrobOk
              exact ⟨c, rfl, by simpa using hrobOk⟩
          refine Or.inr (Or.inr (Or.inl ⟨c, hc, hqc, ?_⟩))
          rw [hopt]
          dsimp only
          rw [if_neg (by rw [hcssOk2]; simp), if_neg (by rw [hxpOk2]; simp),
            if_pos hrobOk, hc]
        · have hrobOk2 : (match generateRobustCSSSelector root r with
              | some c => querySelector root c == some r
              | none => false) = false := by
            simpa using hrobOk
          refine Or.inr (Or.inr (Or.inr ⟨?_, ?_⟩))
          · unfold generationValidated
            rw [hcssOk2, hxpOk2, hrobOk2]
            rfl
          · rw [hopt]
            dsimp only
            rw [if_neg (by rw [hcssOk2]; simp), if_neg (by rw [hxpOk2]; simp),
              if_neg (by rw [hrobOk2]; simp)]

/-- C1 amended.  For every element whose generated selector pair passed
one of generateOptimalSelector's validation checks at generation time
(the source logs a warning exactly when none does), and with no entry for
the generated cache key in the element cache (a stale-but-attached cache
entry under the same key can hijack the lookup), resolving the generated
pair with an unchanged document returns exactly the original element. -/
theorem generate_resolve_roundtrip (root : Dom) (r : Nat) (cache : ElementCache)
    (hkey : mapGet (cacheKey (generateOptimalSelector root r).1
      (generateOptimalSelector root r).2) cache = none)
    (hval : generationValidated root r = true) :
    (findElementBySelector root cache (generateOptimalSelector root r).1
      (generateOptimalSelector root r).2).1 = some r := by
  rcases generateOptimalSelector_spec root r with
    ⟨c, _, hqc, hpair⟩ | ⟨x, _, hvx, hex, hpair⟩ | ⟨c, _, hqc, hpair⟩ | ⟨hnoval, _⟩
  · rw [hpair] at hkey ⊢
    dsimp only at hkey ⊢
    unfold findElementBySelector
    dsimp only
    rw [hkey]
    unfold findCore
    dsimp only
    rw [hqc]
  · rw [hpair] at hkey ⊢
    dsimp only at hkey ⊢
    unfold findElementBySelector
    dsimp only
    rw [hkey]
    unfold findCore
    dsimp only
    unfold findXp
    dsimp only
    rw [if_pos hvx, hex]
  · rw [hpair] at hkey ⊢
    dsimp only at hkey ⊢
    unfold findElementBySelector
    dsimp only
    rw [hkey]
    unfold findCore
    dsimp only
    rw [hqc]
  · rw [hnoval] at hval
    exact absurd hval (by simp)

/-- C1 amended witness: in okDoc the css path of paragraph 3 validates,
and resolving the generated pair against an empty cache returns the
paragraph itself. -/
theorem generate_resolve_roundtrip_witness :
    generationValidated okDoc 3 = true ∧
    (findElementBySelector okDoc [] (generateOptimalSelector okDoc 3).1
      (generateOptimalSelector okDoc 3).2).1 = some 3 := by
  refine ⟨by decide, ?_⟩
  exact generate_resolve_roundtrip okDoc 3 [] (by decide) (by decide)

/-! ### Model of note-dragging.js, drag release (lines 230-268, 400-568)

The geometric inputs that depend on layout rather than on the DOM tree
(getBoundingClientRect and the elementFromPoint / elementsFromPoint hit
tests) enter the model as parameters: a rect assignment for elements and
the hit-test results. -/

/-- JS String.toUpperCase (the ASCII mapping; element.tagName of an HTML
element is the uppercased localName). -/
def jsToUpper (s : String) : String := String.mk (s.data.map Char.toUpper)

/-- The preferred semantic tags of canAnchorToElement. -/
def preferredTags : List String :=
  ["P", "H1", "H2", "H3", "H4", "H5", "H6", "LI", "DIV", "SECTION", "ARTICLE"]

/-- canAnchorToElement (note-dragging.js lines 400-426): not a note or a
highlight (the classList/closest checks walk the element and its
ancestors), at least 10 by 10, and a preferred semantic tag. -/
def canAnchorToElement (root : Dom) (rectOf : Nat → Rect) (r : Nat) : Bool :=
  match findLoc root r with
  | none => false
  | some l =>
    let chain := l.1.info.classes :: l.2.map (fun f => f.1.info.classes)
    if chain.any (fun cl => cl.contains "web-notes-note") ||
        chain.any (fun cl => cl.contains "web-notes-highlight") then false
    else if (rectOf r).width < 10 || (rectOf r).height < 10 then false
    else preferredTags.contains (jsToUpper l.1.info.tag)

/-- findNearestAnchorElement (note-dragging.js lines 434-459): the element
under the cursor when anchorable, else the first anchorable element of
the elementsFromPoint stack at the hovered element's midpoint; null when
nothing under the cursor. -/
def findNearestAnchorElement (root : Dom) (rectOf : Nat → Rect)
    (underCursor : Option Nat) (midpointStack : List Nat) : Option Nat :=
  match underCursor with
  | none => none
  | some el =>
    if canAnchorToElement root rectOf el then some el
    else midpointStack.find? (fun el2 => canAnchorToElement root rectOf el2)

/-- The persisted update emitted on drag release: a reanchor (new selector
pair plus offsets), an offset update against the existing anchor, or an
absolute-coordinates update. -/
inductive DragUpdate where
  | reanchor (css : Option CssSel) (xpath : Option XPathSegs) (offsetX offsetY : Int)
  | offsetUpdate (offsetX offsetY : Int)
  | absoluteUpdate (x y : Int)
  deriving DecidableEq, Repr

/-- anchorNoteToElement (note-dragging.js lines 467-512): generate
selectors for the new anchor; when neither a css nor an xpath selector
was produced, warn and return without persisting anything; otherwise
persist the reanchor update with the (possibly unvalidated) selectors
and the note-to-anchor offsets. -/
def anchorNoteToElement (root : Dom) (rectOf : Nat → Rect) (scroll : Int × Int)
    (anchorRef : Nat) (noteRect : Rect) : Option DragUpdate :=
  let selectors := generateOptimalSelector root anchorRef
  if selectors.1 = none ∧ selectors.2 = none then none
  else
    some (DragUpdate.reanchor selectors.1 selectors.2
      ((noteRect.left + scroll.1) - ((rectOf anchorRef).left + scroll.1))
      ((noteRect.top + scroll.2) - ((rectOf anchorRef).top + scroll.2)))

/-- finishDrag (note-dragging.js lines 230-268): reanchor when an
anchorable element other than the current anchor is under the pointer,
else an offset update against the existing anchor, else an absolute
update for a free-floating note. -/
def finishDrag (root : Dom) (rectOf : Nat → Rect) (scroll : Int × Int)
    (targetElement : Option Nat) (noteRect : Rect)
    (underCursor : Option Nat) (midpointStack : List Nat) : Option DragUpdate :=
  let finalX := noteRect.left + scroll.1
  let finalY := noteRect.top + scroll.2
  match findNearestAnchorElement root rectOf underCursor midpointStack with
  | some a =>
    if targetElement ≠ some a then anchorNoteToElement root rectOf scroll a noteRect
    else
      match targetElement with
      | some te =>
        some (DragUpdate.offsetUpdate (finalX - ((rectOf te).left + scroll.1))
          (finalY - ((rectOf te).top + scroll.2)))
      | none => some (DragUpdate.absoluteUpdate finalX finalY)
  | none =>
    match targetElement with
    | some te =>
      some (DragUpdate.offsetUpdate (finalX - ((rectOf te).left + scroll.1))
        (finalY - ((rectOf te).top + scroll.2)))
    | none => some (DragUpdate.absoluteUpdate finalX finalY)

/-- Every element is rendered 100 by 100 at the viewport origin. -/
def ceRectOf : Nat → Rect := fun _ => ⟨0, 0, 100, 100⟩

/-- C4 counterexample.  Dropping a free-floating note over element 6 of
ceDoc: selector generation fails validation (no candidate resolves back
to element 6), yet the controller persists a reanchor update carrying the
unvalidated selectors — it does not fall back to an offset or absolute
update.  And in the branch where generation yields no selectors at all
(the document root), anchorNoteToElement returns without persisting any
update: the position update is silently dropped. -/
theorem finishDrag_no_fallback_on_failed_validation :
    generationValidated ceDoc 6 = false ∧
    canAnchorToElement ceDoc ceRectOf 6 = true ∧
    finishDrag ceDoc ceRectOf (0, 0) none ⟨50, 60, 200, 100⟩ (some 6) [] =
      some (DragUpdate.reanchor (generateOptimalSelector ceDoc 6).1
        (generateOptimalSelector ceDoc 6).2 50 60) ∧
    (∀ dx dy, finishDrag ceDoc ceRectOf (0, 0) none ⟨50, 60, 200, 100⟩ (some 6) [] ≠
      some (DragUpdate.absoluteUpdate dx dy)) ∧
    anchorNoteToElement ceDoc ceRectOf (0, 0) 0 ⟨50, 60, 200, 100⟩ = none := by
  refine ⟨by decide, by decide, by decide, ?_, by decide⟩
  intro dx dy hcontra
  rw [show finishDrag ceDoc ceRectOf (0, 0) none ⟨50, 60, 200, 100⟩ (some 6) [] =
      some (DragUpdate.reanchor (generateOptimalSelector ceDoc 6).1
        (generateOptimalSelector ceDoc 6).2 50 60) from by decide] at hcontra
  exact absurd hcontra (by simp)

/-- C4 amended.  On drag release over a new anchorable element, the
controller hands the update to anchorNoteToElement regardless of
validation: when selector generation produced at least one best-effort
selector (validated or not) a Reanchor update carrying exactly that pair
is persisted, and when it produced neither selector the call returns
without persisting anything — the position update is dropped, with no
fallback to an offset or absolute update against the pre-drag anchor. -/
theorem finishDrag_reanchor_semantics (root : Dom) (rectOf : Nat → Rect)
    (scroll : Int × Int) (a : Nat) (noteRect : Rect) (target : Option Nat)
    (uc : Option Nat) (pts : List Nat)
    (hna : findNearestAnchorElement root rectOf uc pts = some a)
    (hne : target ≠ some a) :
    (generateOptimalSelector root a = (none, none) →
      finishDrag root rectOf scroll target noteRect uc pts = none) ∧
    (∀ css xp, generateOptimalSelector root a = (css, xp) → (css, xp) ≠ (none, none) →
      finishDrag root rectOf scroll target noteRect uc pts =
        some (DragUpdate.reanchor css xp
          ((noteRect.left + scroll.1) - ((rectOf a).left + scroll.1))
          ((noteRect.top + scroll.2) - ((rectOf a).top + scroll.2)))) := by
  have hfd : finishDrag root rectOf scroll target noteRect uc pts =
      anchorNoteToElement root rectOf scroll a noteRect := by
    unfold finishDrag
    dsimp only
    rw [hna]
    dsimp only
    rw [if_pos hne]
  constructor
  · intro hgen
    rw [hfd]
    unfold anchorNoteToElement
    dsimp only
    rw [if_pos (by rw [hgen]; exact ⟨rfl, rfl⟩)]
  · intro css xp hgen hne2
    rw [hfd]
    unfold anchorNoteToElement
    dsimp only
    rw [hgen]
    dsimp only
    rw [if_neg (by
      intro hcon
      exact hne2 (by rw [Prod.ext_iff]; exact hcon))]

/-- C4 amended witness.  Dropping a note over paragraph 3 of okDoc:
generation yields a selector pair, and the controller persists the
reanchor update with that pair and the computed offsets. -/
theorem finishDrag_reanchor_semantics_witness :
    finishDrag okDoc ceRectOf (0, 0) none ⟨10, 20, 30, 40⟩ (some 3) [] =
      some (DragUpdate.reanchor (generateOptimalSelector okDoc 3).1
        (generateOptimalSelector okDoc 3).2 10 20) := by
  have h := (finishDrag_reanchor_semantics okDoc ceRectOf (0, 0) 3 ⟨10, 20, 30, 40⟩
    none (some 3) [] (by decide) (by decide)).2
    (generateOptimalSelector okDoc 3).1 (generateOptimalSelector okDoc 3).2
    rfl (by decide)
  simpa using h

/-! ### Model of selection-manager.js, highlight lifecycle (lines 108-124,
217-278, 320-345, 376-403)

The highlight container element is a forest of nodes: text nodes
(character lists) and highlight wrapper spans identified by a numeric
reference (createElement yields a fresh object identity).
createTextHighlight locates the target text node with the same
per-node walker logic as findTextInElement, recomputes the offset with
findTextOffset, and splits the node around the extracted range exactly
as extractContents followed by insertNode does; removeTextHighlight
replaces the wrapper with a text node carrying its textContent and
normalizes the parent subtree (merging adjacent text nodes and dropping
empty ones). -/

/-- A node of the highlight container: a text node or a highlight
wrapper span with its reference identity. -/
inductive HNode where
  | text : List Char → HNode
  | wrap : Nat → List HNode → HNode

/-- textContent of a forest. -/
def textContentL : List HNode → List Char
  | [] => []
  | HNode.text s :: rest => s ++ textContentL rest
  | HNode.wrap _ cs :: rest => textContentL cs ++ textContentL rest

/-- The text-node data of a forest in tree-walker (document) order. -/
def htextsL : List HNode → List (List Char)
  | [] => []
  | HNode.text s :: rest => s :: htextsL rest
  | HNode.wrap _ cs :: rest => htextsL cs ++ htextsL rest

/-- All wrapper references of a forest (document order). -/
def wrapRefsL : List HNode → List Nat
  | [] => []
  | HNode.text _ :: rest => wrapRefsL rest
  | HNode.wrap w cs :: rest => w :: (wrapRefsL cs ++ wrapRefsL rest)

/-- Node.normalize over a forest: remove empty text nodes and merge
adjacent ones, recursively. -/
def normalizeL : List HNode → List HNode
  | [] => []
  | HNode.wrap w cs :: rest => HNode.wrap w (normalizeL cs) :: normalizeL rest
  | HNode.text s :: rest =>
    if s.isEmpty then normalizeL rest
    else
      match normalizeL rest with
      | HNode.text s2 :: rest2 => HNode.text (s ++ s2) :: rest2
      | out => HNode.text s :: out

/-- findTextOffset (selection-manager.js lines 327-345): with a non-empty
contextBefore first try contextBefore ++ text (offset = match index +
contextBefore.length), else fall back to the bare text; none models the
source's -1. -/
def findTextOffset (s t cb : List Char) : Option Nat :=
  if cb.isEmpty then jsIndexOf s t
  else
    match jsIndexOf s (cb ++ t) with
    | some i => some (i + cb.length)
    | none => jsIndexOf s t

/-- The walker of createTextHighlight: visit text nodes in document
order; the first node accepted by findTextInElement's per-node test
(full context or bare text) is split around the range
[offset, offset + text.length) with a fresh wrapper inserted, exactly as
range.extractContents / insertNode leave the tree (possibly-empty
boundary text nodes included).  Result: none when no node is accepted
(findTextInElement returned null), some none when findTextOffset fails
on the accepted node (the source returns false), some (some forest) on
success. -/
def wrapFirstL (t cb ca : List Char) (ref : Nat) : List HNode → Option (Option (List HNode))
  | [] => none
  | HNode.text s :: rest =>
    if jsIncludes s (cb ++ t ++ ca) || jsIncludes s t then
      some
        (match findTextOffset s t cb with
         | some o =>
           some (HNode.text (s.take o) ::
             HNode.wrap ref [HNode.text ((s.drop o).take t.length)] ::
             HNode.text (s.drop (o + t.length)) :: rest)
         | none => none)
    else (wrapFirstL t cb ca ref rest).map (fun r => r.map (fun rest2 => HNode.text s :: rest2))
  | HNode.wrap w cs :: rest =>
    match wrapFirstL t cb ca ref cs with
    | some r => some (r.map (fun cs2 => HNode.wrap w cs2 :: rest))
    | none =>
      (wrapFirstL t cb ca ref rest).map (fun r => r.map (fun rest2 => HNode.wrap w cs :: rest2))

/-- Split a forest at a direct member that is the wrapper with the given
reference: (preceding siblings, wrapper children, following siblings). -/
def splitAtWrap (r : Nat) : List HNode → Option (List HNode × List HNode × List HNode)
  | [] => none
  | HNode.wrap w cs :: rest =>
    if w = r then some ([], cs, rest)
    else (splitAtWrap r rest).map (fun q => (HNode.wrap w cs :: q.1, q.2.1, q.2.2))
  | HNode.text s :: rest =>
    (splitAtWrap r rest).map (fun q => (HNode.text s :: q.1, q.2.1, q.2.2))

/-- Replace the wrapper with the given reference somewhere below the top
level: when it is a direct child of a wrap node, replaceChild plus
normalize of that parent subtree; otherwise descend. -/
def removeInL (r : Nat) : List HNode → Option (List HNode)
  | [] => none
  | HNode.text s :: rest => (removeInL r rest).map (fun rest2 => HNode.text s :: rest2)
  | HNode.wrap w cs :: rest =>
    match splitAtWrap r cs with
    | some q =>
      some (HNode.wrap w (normalizeL (q.1 ++ HNode.text (textContentL q.2.1) :: q.2.2)) :: rest)
    | none =>
      match removeInL r cs with
      | some cs2 => some (HNode.wrap w cs2 :: rest)
      | none => (removeInL r rest).map (fun rest2 => HNode.wrap w cs :: rest2)

/-- The DOM effect of removeTextHighlight when the wrapper is attached in
the container: replaceChild(textNode, wrapper) on its parent followed by
parent.normalize(); none when the wrapper is not in the container (its
parent is then part of a detached tree, so the replace does not affect
the container). -/
def removeWrapper (r : Nat) (container : List HNode) : Option (List HNode) :=
  match splitAtWrap r container with
  | some q => some (normalizeL (q.1 ++ HNode.text (textContentL q.2.1) :: q.2.2))
  | none => removeInL r container

/-- SELECTION_CONSTANTS.MAX_HIGHLIGHTS. -/
def MAX_HIGHLIGHTS : Nat := 1000

/-- The highlight manager state: the container's children, the
noteHighlights map (noteId to wrapper reference, insertion-ordered) and
the next fresh wrapper identity. -/
structure HighlightState where
  container : List HNode
  noteHighlights : List (String × Nat)
  nextRef : Nat

/-- removeTextHighlight (selection-manager.js lines 376-403): look up the
record, undo the wrapper in the container when it is still there, drop
the record. -/
def removeTextHighlight (st : HighlightState) (noteId : String) : Bool × HighlightState :=
  match mapGet noteId st.noteHighlights with
  | none => (false, st)
  | some r =>
    match removeWrapper r st.container with
    | some c2 =>
      (true,
        { st with
          container := c2
          noteHighlights := mapDelete noteId st.noteHighlights })
    | none => (true, { st with noteHighlights := mapDelete noteId st.noteHighlights })

/-- One pass of cleanupHighlights' removal loop over the snapshot of the
oldest excess entries. -/
def removeList (ids : List String) (st : HighlightState) : HighlightState :=
  match ids with
  | [] => st
  | id :: rest => removeList rest (removeTextHighlight st id).2

/-- cleanupHighlights (selection-manager.js lines 111-124): when over the
cap, force-remove the oldest (first-inserted) excess entries. -/
def cleanupHighlights (st : HighlightState) : HighlightState :=
  if MAX_HIGHLIGHTS < st.noteHighlights.length then
    removeList ((st.noteHighlights.take (st.noteHighlights.length - MAX_HIGHLIGHTS)).map
      Prod.fst) st
  else st

/-- createTextHighlight (selection-manager.js lines 217-278): reject an
empty selection text (falsy guard), remove any pre-existing highlight for
the note, locate and wrap the text span with a fresh wrapper, record the
wrapper, then run the cap cleanup. -/
def createTextHighlight (st : HighlightState) (noteId : String) (t cb ca : List Char) :
    Bool × HighlightState :=
  if t.isEmpty then (false, st)
  else
    let st1 := (removeTextHighlight st noteId).2
    match wrapFirstL t cb ca st1.nextRef st1.container with
    | none => (false, st1)
    | some none => (false, st1)
    | some (some c2) =>
      (true, cleanupHighlights
        { container := c2,
          noteHighlights := mapSet noteId st1.nextRef st1.noteHighlights,
          nextRef := st1.nextRef + 1 })

/-- A highlight-manager operation. -/
inductive HOp where
  | create (noteId : String) (t cb ca : List Char)
  | remove (noteId : String)

/-- Apply one operation (the Boolean results are dropped). -/
def applyOp (st : HighlightState) : HOp → HighlightState
  | HOp.create id t cb ca => (createTextHighlight st id t cb ca).2
  | HOp.remove id => (removeTextHighlight st id).2

/-- Apply a sequence of operations. -/
def applyOps (st : HighlightState) : List HOp → HighlightState
  | [] => st
  | op :: rest => applyOps (applyOp st op) rest

/-! Supporting lemmas for the highlight lifecycle. -/

theorem tc_append (a b : List HNode) :
    textContentL (a ++ b) = textContentL a ++ textContentL b := by
  induction a using textContentL.induct with
  | case1 => simp [textContentL]
  | case2 s rest ih => simp [textContentL, ih]
  | case3 w cs rest ih1 ih2 => simp [textContentL, ih2]

theorem htexts_append (a b : List HNode) :
    htextsL (a ++ b) = htextsL a ++ htextsL b := by
  induction a using htextsL.induct with
  | case1 => simp [htextsL]
  | case2 s rest ih => simp [htextsL, ih]
  | case3 w cs rest ih1 ih2 => simp [htextsL, ih2]

theorem refs_append (a b : List HNode) :
    wrapRefsL (a ++ b) = wrapRefsL a ++ wrapRefsL b := by
  induction a using wrapRefsL.induct with
  | case1 => simp [wrapRefsL]
  | case2 s rest ih => simp [wrapRefsL, ih]
  | case3 w cs rest ih1 ih2 => simp [wrapRefsL, ih2]

theorem tc_norm (l : List HNode) : textContentL (normalizeL l) = textContentL l := by
  induction l using normalizeL.induct with
  | case1 => simp [normalizeL]
  | case2 w cs rest ih1 ih2 => simp [normalizeL, textContentL, ih1, ih2]
  | case3 s rest hs ih =>
    have hs2 : s = [] := List.isEmpty_iff.mp hs
    simp [normalizeL, hs, textContentL, ih, hs2]
  | case4 s rest hs s2 rest2 hmatch ih =>
    rw [hmatch] at ih
    simp only [textContentL] at ih
    simp only [normalizeL, if_neg hs, hmatch, textContentL]
    rw [List.append_assoc, ih]
  | case5 s rest hs hno ih =>
    simp only [normalizeL, if_neg hs]
    rcases hnr : normalizeL rest with _ | ⟨hd, tl⟩
    · rw [hnr] at ih
      simp [textContentL, ← ih]
    · cases hd with
      | text s2 => exact absurd hnr (hno s2 tl)
      | wrap w cs =>
        rw [hnr] at ih
        simp [textContentL, ← ih]

theorem refs_norm (l : List HNode) : wrapRefsL (normalizeL l) = wrapRefsL l := by
  induction l using normalizeL.induct with
  | case1 => simp [normalizeL]
  | case2 w cs rest ih1 ih2 => simp [normalizeL, wrapRefsL, ih1, ih2]
  | case3 s rest hs ih => simp [normalizeL, hs, wrapRefsL, ih]
  | case4 s rest hs s2 rest2 hmatch ih =>
    rw [hmatch] at ih
    simp only [wrapRefsL] at ih
    simp only [normalizeL, if_neg hs, hmatch, wrapRefsL]
    exact ih
  | case5 s rest hs hno ih =>
    simp only [normalizeL, if_neg hs]
    rcases hnr : normalizeL rest with _ | ⟨hd, tl⟩
    · rw [hnr] at ih
      simp [wrapRefsL, ← ih]
    · cases hd with
      | text s2 => exact absurd hnr (hno s2 tl)
      | wrap w cs =>
        rw [hnr] at ih
        simp [wrapRefsL, ← ih]

theorem contains_norm {t : List Char} (ht : t ≠ []) (l : List HNode)
    (h : ∃ s ∈ htextsL l, t <:+: s) :
    ∃ s ∈ htextsL (normalizeL l), t <:+: s := by
  induction l using normalizeL.induct with
  | case1 => simp [htextsL] at h
  | case2 w cs rest ih1 ih2 =>
    simp only [htextsL, List.mem_append] at h
    obtain ⟨u, hu | hu, htu⟩ := h
    · obtain ⟨u2, hu2, htu2⟩ := ih1 ⟨u, hu, htu⟩
      exact ⟨u2, by simp [normalizeL, htextsL, hu2], htu2⟩
    · obtain ⟨u2, hu2, htu2⟩ := ih2 ⟨u, hu, htu⟩
      exact ⟨u2, by simp [normalizeL, htextsL, hu2], htu2⟩
  | case3 s rest hs ih =>
    have hs2 : s = [] := List.isEmpty_iff.mp hs
    simp only [htextsL, List.mem_cons] at h
    obtain ⟨w, hw | hw, htw⟩ := h
    · rw [hw, hs2] at htw
      exact absurd (List.eq_nil_of_infix_nil htw) ht
    · simpa [normalizeL, hs] using ih ⟨w, hw, htw⟩
  | case4 s rest hs s2 rest2 hmatch ih =>
    simp only [normalizeL, if_neg hs, hmatch]
    simp only [htextsL, List.mem_cons] at h
    obtain ⟨w, hw | hw, htw⟩ := h
    · exact ⟨s ++ s2, by simp [htextsL], (hw ▸ htw).trans ⟨[], s2, by simp⟩⟩
    · obtain ⟨w2, hw2, htw2⟩ := ih ⟨w, hw, htw⟩
      rw [hmatch] at hw2
      simp only [htextsL, List.mem_cons] at hw2
      rcases hw2 with hw2 | hw2
      · exact ⟨s ++ s2, by simp [htextsL], (hw2 ▸ htw2).trans ⟨s, [], by simp⟩⟩
      · exact ⟨w2, by simp [htextsL, hw2], htw2⟩
  | case5 s rest hs hno ih =>
    simp only [normalizeL, if_neg hs]
    rcases hnr : normalizeL rest with _ | ⟨hd, tl⟩
    · simp only [htextsL, List.mem_cons] at h
      obtain ⟨w, hw | hw, htw⟩ := h
      · exact ⟨s, by simp [htextsL], hw ▸ htw⟩
      · obtain ⟨w2, hw2, _⟩ := ih ⟨w, hw, htw⟩
        rw [hnr] at hw2
        exact absurd hw2 (by simp [htextsL])
    · cases hd with
      | text s2 => exact absurd hnr (hno s2 tl)
      | wrap w2 cs2 =>
        simp only [htextsL, List.mem_cons] at h
        obtain ⟨w, hw | hw, htw⟩ := h
        · exact ⟨s, by simp [htextsL], hw ▸ htw⟩
        · obtain ⟨w2b, hw2, htw2⟩ := ih ⟨w, hw, htw⟩
          rw [hnr] at hw2
          refine ⟨w2b, ?_, htw2⟩
          simp only [htextsL, List.mem_cons, List.mem_append] at hw2 ⊢
          exact Or.inr hw2

theorem jsIndexOf_some_prefix {hay pat : List Char} {i : Nat}
    (h : jsIndexOf hay pat = some i) : pat <+: hay.drop i := by
  induction hay, pat using jsIndexOf.induct generalizing i with
  | case1 hay pat hp =>
    unfold jsIndexOf at h
    rw [if_pos hp] at h
    simp only [Option.some_inj] at h
    subst h
    simpa using List.isPrefixOf_iff_prefix.mp hp
  | case2 pat hp =>
    unfold jsIndexOf at h
    rw [if_neg hp] at h
    exact absurd h (by simp)
  | case3 pat c cs hp ih =>
    unfold jsIndexOf at h
    rw [if_neg hp] at h
    simp only [Option.map_eq_some'] at h
    obtain ⟨j, hj, hij⟩ := h
    subst hij
    simpa using ih hj

theorem jsIndexOf_isSome_of_infix {hay pat : List Char} (h : pat <:+: hay) :
    (jsIndexOf hay pat).isSome = true := by
  obtain ⟨pre, post, hs⟩ := h
  induction pre generalizing hay with
  | nil =>
    have hp : pat.isPrefixOf hay := by
      rw [List.isPrefixOf_iff_prefix]
      exact ⟨post, by simpa using hs⟩
    unfold jsIndexOf
    rw [if_pos hp]
    rfl
  | cons c pre2 ih =>
    have hs2 : hay = c :: (pre2 ++ pat ++ post) := by rw [← hs]; simp
    rw [hs2]
    unfold jsIndexOf
    by_cases hp : pat.isPrefixOf (c :: (pre2 ++ pat ++ post))
    · rw [if_pos hp]
      rfl
    · rw [if_neg hp]
      have hrec := @ih (pre2 ++ pat ++ post) rfl
      cases hjs : jsIndexOf (pre2 ++ pat ++ post) pat with
      | none => rw [hjs] at hrec; exact absurd hrec (by simp)
      | some j =>
        dsimp only
        rw [hjs]
        rfl

theorem jsIncludes_of_infix {hay pat : List Char} (h : pat <:+: hay) :
    jsIncludes hay pat = true := by
  unfold jsIncludes
  exact jsIndexOf_isSome_of_infix h

theorem infix_of_jsIncludes {hay pat : List Char} (h : jsIncludes hay pat = true) :
    pat <:+: hay := by
  unfold jsIncludes at h
  obtain ⟨i, hi⟩ := Option.isSome_iff_exists.mp h
  obtain ⟨post, hpost⟩ := jsIndexOf_some_prefix hi
  exact ⟨hay.take i, post, by rw [List.append_assoc, hpost]; simp⟩

theorem findTextOffset_prefix {s t cb : List Char} {o : Nat}
    (h : findTextOffset s t cb = some o) : t <+: s.drop o := by
  unfold findTextOffset at h
  by_cases hcb : cb.isEmpty
  · rw [if_pos hcb] at h
    exact jsIndexOf_some_prefix h
  · rw [if_neg hcb] at h
    cases hfull : jsIndexOf s (cb ++ t) with
    | some i =>
      rw [hfull] at h
      simp only [Option.some_inj] at h
      subst h
      obtain ⟨post, hpost⟩ := jsIndexOf_some_prefix hfull
      refine ⟨post, ?_⟩
      have hdd : (s.drop i).drop cb.length = s.drop (i + cb.length) := by
        rw [List.drop_drop, Nat.add_comm]
      rw [← hdd, ← hpost]
      simp
    | none =>
      rw [hfull] at h
      exact jsIndexOf_some_prefix h

theorem findTextOffset_isSome_of_accepted {s t cb ca : List Char}
    (h : (jsIncludes s (cb ++ t ++ ca) || jsIncludes s t) = true) :
    (findTextOffset s t cb).isSome = true := by
  have hts : t <:+: s := by
    rcases Bool.or_eq_true_iff.mp h with hfull | hbare
    · have hinf := infix_of_jsIncludes hfull
      exact List.IsInfix.trans ⟨cb, ca, by simp⟩ hinf
    · exact infix_of_jsIncludes hbare
  unfold findTextOffset
  by_cases hcb : cb.isEmpty
  · rw [if_pos hcb]
    exact jsIndexOf_isSome_of_infix hts
  · rw [if_neg hcb]
    cases hfull : jsIndexOf s (cb ++ t) with
    | some i => rfl
    | none => exact jsIndexOf_isSome_of_infix hts

theorem leaf_infix_textContent {s : List Char} {l : List HNode}
    (h : s ∈ htextsL l) : s <:+: textContentL l := by
  induction l using htextsL.induct with
  | case1 => simp [htextsL] at h
  | case2 s2 rest ih =>
    simp only [htextsL, List.mem_cons] at h
    rcases h with h | h
    · subst h
      exact ⟨[], textContentL rest, by simp [textContentL]⟩
    · exact (ih h).trans ⟨s2, [], by simp [textContentL]⟩
  | case3 w cs rest ih1 ih2 =>
    simp only [htextsL, List.mem_append] at h
    rcases h with h | h
    · exact (ih1 h).trans ⟨[], textContentL rest, by simp [textContentL]⟩
    · exact (ih2 h).trans ⟨textContentL cs, [], by simp [textContentL]⟩

theorem splitAtWrap_eq {r : Nat} {l : List HNode} :
    ∀ {pre cs post : List HNode}, splitAtWrap r l = some (pre, cs, post) →
      l = pre ++ HNode.wrap r cs :: post := by
  induction l with
  | nil =>
    intro pre cs post h
    exact absurd h (by simp [splitAtWrap])
  | cons hd tl ih =>
    intro pre cs post h
    cases hd with
    | text s =>
      unfold splitAtWrap at h
      simp only [Option.map_eq_some'] at h
      obtain ⟨q, hq, hqe⟩ := h
      obtain ⟨q1, q2, q3⟩ := q
      simp only [Prod.mk.injEq] at hqe
      obtain ⟨h1, h2, h3⟩ := hqe
      subst h1
      subst h2
      subst h3
      rw [ih hq]
      simp
    | wrap w cs2 =>
      unfold splitAtWrap at h
      by_cases hwr : w = r
      · rw [if_pos hwr] at h
        simp only [Option.some_inj, Prod.mk.injEq] at h
        obtain ⟨h1, h2, h3⟩ := h
        subst h1
        subst h2
        subst h3
        subst hwr
        simp
      · rw [if_neg hwr] at h
        simp only [Option.map_eq_some'] at h
        obtain ⟨q, hq, hqe⟩ := h
        obtain ⟨q1, q2, q3⟩ := q
        simp only [Prod.mk.injEq] at hqe
        obtain ⟨h1, h2, h3⟩ := hqe
        subst h1
        subst h2
        subst h3
        rw [ih hq]
        simp

theorem splice_id (s : List Char) (o len : Nat) :
    s.take o ++ ((s.drop o).take len ++ s.drop (o + len)) = s := by
  have h1 : s.drop (o + len) = (s.drop o).drop len := by rw [List.drop_drop, Nat.add_comm]
  rw [h1, List.take_append_drop, List.take_append_drop]

theorem wrapFirst_ne_some_none (t cb ca : List Char) (ref : Nat) (l : List HNode) :
    wrapFirstL t cb ca ref l ≠ some none := by
  induction l using wrapFirstL.induct t cb ca ref with
  | case1 => simp [wrapFirstL]
  | case2 s rest hacc =>
    intro hcon
    unfold wrapFirstL at hcon
    rw [if_pos hacc] at hcon
    have hoff := findTextOffset_isSome_of_accepted hacc
    cases hfo : findTextOffset s t cb with
    | some o => rw [hfo] at hcon; simp at hcon
    | none => rw [hfo] at hoff; simp at hoff
  | case3 s rest hacc ih =>
    intro hcon
    unfold wrapFirstL at hcon
    rw [if_neg hacc] at hcon
    simp only [Option.map_eq_some'] at hcon
    obtain ⟨q, hq, hqe⟩ := hcon
    cases q with
    | some q2 => simp at hqe
    | none => exact ih hq
  | case4 a cs rest q hcs ih =>
    intro hcon
    unfold wrapFirstL at hcon
    rw [hcs] at hcon
    simp only [Option.some_inj] at hcon
    cases q with
    | some q2 => simp at hcon
    | none => exact ih hcs
  | case5 a cs rest hcs ih1 ih2 =>
    intro hcon
    unfold wrapFirstL at hcon
    rw [hcs] at hcon
    simp only [Option.map_eq_some'] at hcon
    obtain ⟨q, hq, hqe⟩ := hcon
    cases q with
    | some q2 => simp at hqe
    | none => exact ih2 hq

theorem wrapFirst_tc {t cb ca : List Char} {ref : Nat} {l : List HNode} :
    ∀ {l2 : List HNode}, wrapFirstL t cb ca ref l = some (some l2) →
      textContentL l2 = textContentL l := by
  induction l using wrapFirstL.induct t cb ca ref with
  | case1 => intro l2 h; simp [wrapFirstL] at h
  | case2 s rest hacc =>
    intro l2 h
    unfold wrapFirstL at h
    rw [if_pos hacc] at h
    cases hfo : findTextOffset s t cb with
    | none => rw [hfo] at h; simp at h
    | some o =>
      rw [hfo] at h
      simp only [Option.some_inj] at h
      subst h
      simp only [textContentL, List.append_nil]
      have hassoc : s.take o ++ ((s.drop o).take t.length ++
          (s.drop (o + t.length) ++ textContentL rest)) =
          (s.take o ++ ((s.drop o).take t.length ++ s.drop (o + t.length))) ++
            textContentL rest := by
        simp only [List.append_assoc]
      rw [hassoc, splice_id]
  | case3 s rest hacc ih =>
    intro l2 h
    unfold wrapFirstL at h
    rw [if_neg hacc] at h
    simp only [Option.map_eq_some'] at h
    obtain ⟨q, hq, q2, rfl, hl2⟩ := h
    subst hl2
    simp [textContentL, ih hq]
  | case4 a cs rest q hcs ih =>
    intro l2 h
    unfold wrapFirstL at h
    rw [hcs] at h
    simp only [Option.some_inj] at h
    cases q with
    | none => simp at h
    | some q2 =>
      simp only [Option.map_some', Option.some_inj] at h
      subst h
      simp [textContentL, ih hcs]
  | case5 a cs rest hcs ih1 ih2 =>
    intro l2 h
    unfold wrapFirstL at h
    rw [hcs] at h
    simp only [Option.map_eq_some'] at h
    obtain ⟨q, hq, q2, rfl, hl2⟩ := h
    subst hl2
    simp [textContentL, ih2 hq]

theorem wrapFirst_count {t cb ca : List Char} {ref : Nat} {l : List HNode} :
    ∀ {l2 : List HNode}, wrapFirstL t cb ca ref l = some (some l2) →
      ∀ x : Nat, (wrapRefsL l2).count x =
        (wrapRefsL l).count x + (if x = ref then 1 else 0) := by
  induction l using wrapFirstL.induct t cb ca ref with
  | case1 => intro l2 h; simp [wrapFirstL] at h
  | case2 s rest hacc =>
    intro l2 h x
    unfold wrapFirstL at h
    rw [if_pos hacc] at h
    cases hfo : findTextOffset s t cb with
    | none => rw [hfo] at h; simp at h
    | some o =>
      rw [hfo] at h
      simp only [Option.some_inj] at h
      subst h
      simp only [wrapRefsL, List.count_cons, List.count_append, List.count_nil]
      by_cases hx : x = ref
      · simp [hx]
      · simp [hx, Ne.symm hx]
  | case3 s rest hacc ih =>
    intro l2 h x
    unfold wrapFirstL at h
    rw [if_neg hacc] at h
    simp only [Option.map_eq_some'] at h
    obtain ⟨q, hq, q2, rfl, hl2⟩ := h
    subst hl2
    simp [wrapRefsL, ih hq x]
  | case4 a cs rest q hcs ih =>
    intro l2 h x
    unfold wrapFirstL at h
    rw [hcs] at h
    simp only [Option.some_inj] at h
    cases q with
    | none => simp at h
    | some q2 =>
      simp only [Option.map_some', Option.some_inj] at h
      subst h
      simp only [wrapRefsL, List.count_cons, List.count_append]
      have := ih hcs x
      omega
  | case5 a cs rest hcs ih1 ih2 =>
    intro l2 h x
    unfold wrapFirstL at h
    rw [hcs] at h
    simp only [Option.map_eq_some'] at h
    obtain ⟨q, hq, q2, rfl, hl2⟩ := h
    subst hl2
    simp only [wrapRefsL, List.count_cons, List.count_append]
    have := ih2 hq x
    omega

theorem wrapFirst_contains {t cb ca : List Char} {ref : Nat} {l : List HNode} :
    ∀ {l2 : List HNode}, wrapFirstL t cb ca ref l = some (some l2) →
      ∃ u ∈ htextsL l2, t <:+: u := by
  induction l using wrapFirstL.induct t cb ca ref with
  | case1 => intro l2 h; simp [wrapFirstL] at h
  | case2 s rest hacc =>
    intro l2 h
    unfold wrapFirstL at h
    rw [if_pos hacc] at h
    cases hfo : findTextOffset s t cb with
    | none => rw [hfo] at h; simp at h
    | some o =>
      rw [hfo] at h
      simp only [Option.some_inj] at h
      subst h
      have hpre := findTextOffset_prefix hfo
      have hmid : (s.drop o).take t.length = t :=
        (List.prefix_iff_eq_take.mp hpre).symm
      exact ⟨t, by simp [htextsL, hmid], List.infix_refl t⟩
  | case3 s rest hacc ih =>
    intro l2 h
    unfold wrapFirstL at h
    rw [if_neg hacc] at h
    simp only [Option.map_eq_some'] at h
    obtain ⟨q, hq, q2, rfl, hl2⟩ := h
    subst hl2
    obtain ⟨u, hu, htu⟩ := ih hq
    exact ⟨u, by simp [htextsL, hu], htu⟩
  | case4 a cs rest q hcs ih =>
    intro l2 h
    unfold wrapFirstL at h
    rw [hcs] at h
    simp only [Option.some_inj] at h
    cases q with
    | none => simp at h
    | some q2 =>
      simp only [Option.map_some', Option.some_inj] at h
      subst h
      obtain ⟨u, hu, htu⟩ := ih hcs
      exact ⟨u, by simp [htextsL, hu], htu⟩
  | case5 a cs rest hcs ih1 ih2 =>
    intro l2 h
    unfold wrapFirstL at h
    rw [hcs] at h
    simp only [Option.map_eq_some'] at h
    obtain ⟨q, hq, q2, rfl, hl2⟩ := h
    subst hl2
    obtain ⟨u, hu, htu⟩ := ih2 hq
    exact ⟨u, by simp [htextsL, hu], htu⟩

theorem wrapFirst_isSome_of_contains {t cb ca : List Char} {ref : Nat} {l : List HNode} :
    (∃ s ∈ htextsL l, t <:+: s) → (wrapFirstL t cb ca ref l).isSome = true := by
  induction l using wrapFirstL.induct t cb ca ref with
  | case1 => intro h; simp [htextsL] at h
  | case2 s rest hacc =>
    intro _
    unfold wrapFirstL
    rw [if_pos hacc]
    rfl
  | case3 s rest hacc ih =>
    intro h
    simp only [htextsL, List.mem_cons] at h
    obtain ⟨u, hu | hu, htu⟩ := h
    · have hbare : jsIncludes s t = true := jsIncludes_of_infix (hu ▸ htu)
      exact absurd (by simp [hbare]) hacc
    · unfold wrapFirstL
      rw [if_neg hacc]
      have hih := ih ⟨u, hu, htu⟩
      cases hq : wrapFirstL t cb ca ref rest with
      | none => rw [hq] at hih; simp at hih
      | some q => simp
  | case4 a cs rest q hcs ih =>
    intro _
    unfold wrapFirstL
    rw [hcs]
    rfl
  | case5 a cs rest hcs ih1 ih2 =>
    intro h
    simp only [htextsL, List.mem_append] at h
    obtain ⟨u, hu | hu, htu⟩ := h
    · have := ih1 ⟨u, hu, htu⟩
      rw [hcs] at this
      simp at this
    · unfold wrapFirstL
      rw [hcs]
      have := ih2 ⟨u, hu, htu⟩
      cases hq : wrapFirstL t cb ca ref rest with
      | none => rw [hq] at this; simp at this
      | some q => simp

theorem spliceOut_tc {r : Nat} {cs q1 q21 q22 : List HNode}
    (hsp : splitAtWrap r cs = some (q1, q21, q22)) :
    textContentL (normalizeL (q1 ++ HNode.text (textContentL q21) :: q22)) =
      textContentL cs := by
  rw [splitAtWrap_eq hsp]
  rw [tc_norm, tc_append, tc_append]
  simp [textContentL]

theorem spliceOut_count {r : Nat} {cs q1 q21 q22 : List HNode}
    (hsp : splitAtWrap r cs = some (q1, q21, q22)) (x : Nat) :
    (wrapRefsL (normalizeL (q1 ++ HNode.text (textContentL q21) :: q22))).count x +
      (if x = r then 1 else 0) ≤ (wrapRefsL cs).count x := by
  rw [splitAtWrap_eq hsp]
  simp only [refs_norm, refs_append, wrapRefsL, List.count_append, List.count_cons,
    List.count_nil]
  rcases eq_or_ne x r with hx | hx
  · subst hx
    simp only [if_pos rfl, beq_self_eq_true, if_true]
    omega
  · simp [hx, Ne.symm hx]

theorem spliceOut_contains {p : List Char} {r : Nat} {cs q1 q21 q22 : List HNode}
    (hp : p ≠ []) (hsp : splitAtWrap r cs = some (q1, q21, q22))
    (h : ∃ s ∈ htextsL cs, p <:+: s) :
    ∃ s ∈ htextsL (normalizeL (q1 ++ HNode.text (textContentL q21) :: q22)), p <:+: s := by
  apply contains_norm hp
  rw [splitAtWrap_eq hsp] at h
  simp only [htexts_append, htextsL, List.mem_append, List.mem_cons] at h ⊢
  obtain ⟨s, hs, hps⟩ := h
  rcases hs with hs | hs | hs
  · exact ⟨s, Or.inl hs, hps⟩
  · exact ⟨textContentL q21, Or.inr (Or.inl rfl), hps.trans (leaf_infix_textContent hs)⟩
  · exact ⟨s, Or.inr (Or.inr hs), hps⟩

theorem removeInL_tc {r : Nat} {l : List HNode} :
    ∀ {l2 : List HNode}, removeInL r l = some l2 → textContentL l2 = textContentL l := by
  induction l using removeInL.induct r with
  | case1 => intro l2 h; simp [removeInL] at h
  | case2 s rest ih =>
    intro l2 h
    unfold removeInL at h
    simp only [Option.map_eq_some'] at h
    obtain ⟨rest2, hrest, hl2⟩ := h
    subst hl2
    simp [textContentL, ih hrest]
  | case3 w cs rest q hsp =>
    obtain ⟨q1, q21, q22⟩ := q
    intro l2 h
    unfold removeInL at h
    rw [hsp] at h
    simp only [Option.some_inj] at h
    subst h
    simp [textContentL, spliceOut_tc hsp]
  | case4 w cs rest hsp cs2 hrec ih =>
    intro l2 h
    unfold removeInL at h
    rw [hsp] at h
    dsimp only at h
    rw [hrec] at h
    simp only [Option.some_inj] at h
    subst h
    simp [textContentL, ih hrec]
  | case5 w cs rest hsp hrecn ih1 ih2 =>
    intro l2 h
    unfold removeInL at h
    rw [hsp] at h
    dsimp only at h
    rw [hrecn] at h
    simp only [Option.map_eq_some'] at h
    obtain ⟨rest2, hrest, hl2⟩ := h
    subst hl2
    simp [textContentL, ih2 hrest]

theorem removeInL_count {r : Nat} {l : List HNode} :
    ∀ {l2 : List HNode}, removeInL r l = some l2 → ∀ x : Nat,
      (wrapRefsL l2).count x + (if x = r then 1 else 0) ≤ (wrapRefsL l).count x := by
  induction l using removeInL.induct r with
  | case1 => intro l2 h; simp [removeInL] at h
  | case2 s rest ih =>
    intro l2 h x
    unfold removeInL at h
    simp only [Option.map_eq_some'] at h
    obtain ⟨rest2, hrest, hl2⟩ := h
    subst hl2
    simpa [wrapRefsL] using ih hrest x
  | case3 w cs rest q hsp =>
    obtain ⟨q1, q21, q22⟩ := q
    intro l2 h x
    unfold removeInL at h
    rw [hsp] at h
    simp only [Option.some_inj] at h
    subst h
    have hsc := spliceOut_count hsp x
    simp only [wrapRefsL, List.count_cons, List.count_append]
    omega
  | case4 w cs rest hsp cs2 hrec ih =>
    intro l2 h x
    unfold removeInL at h
    rw [hsp] at h
    dsimp only at h
    rw [hrec] at h
    simp only [Option.some_inj] at h
    subst h
    have hic := ih hrec x
    simp only [wrapRefsL, List.count_cons, List.count_append]
    omega
  | case5 w cs rest hsp hrecn ih1 ih2 =>
    intro l2 h x
    unfold removeInL at h
    rw [hsp] at h
    dsimp only at h
    rw [hrecn] at h
    simp only [Option.map_eq_some'] at h
    obtain ⟨rest2, hrest, hl2⟩ := h
    subst hl2
    have hic := ih2 hrest x
    simp only [wrapRefsL, List.count_cons, List.count_append]
    omega

theorem removeInL_contains {p : List Char} {r : Nat} {l : List HNode} (hp : p ≠ []) :
    ∀ {l2 : List HNode}, removeInL r l = some l2 → (∃ s ∈ htextsL l, p <:+: s) →
      ∃ s ∈ htextsL l2, p <:+: s := by
  induction l using removeInL.induct r with
  | case1 => intro l2 h; simp [removeInL] at h
  | case2 s rest ih =>
    intro l2 h hc
    unfold removeInL at h
    simp only [Option.map_eq_some'] at h
    obtain ⟨rest2, hrest, hl2⟩ := h
    subst hl2
    simp only [htextsL, List.mem_cons] at hc ⊢
    obtain ⟨u, hu | hu, hpu⟩ := hc
    · exact ⟨u, Or.inl hu, hpu⟩
    · obtain ⟨u2, hu2, hpu2⟩ := ih hrest ⟨u, hu, hpu⟩
      exact ⟨u2, Or.inr hu2, hpu2⟩
  | case3 w cs rest q hsp =>
    obtain ⟨q1, q21, q22⟩ := q
    intro l2 h hc
    unfold removeInL at h
    rw [hsp] at h
    simp only [Option.some_inj] at h
    subst h
    simp only [htextsL, List.mem_append] at hc ⊢
    obtain ⟨u, hu | hu, hpu⟩ := hc
    · obtain ⟨u2, hu2, hpu2⟩ := spliceOut_contains hp hsp ⟨u, hu, hpu⟩
      exact ⟨u2, Or.inl hu2, hpu2⟩
    · exact ⟨u, Or.inr hu, hpu⟩
  | case4 w cs rest hsp cs2 hrec ih =>
    intro l2 h hc
    unfold removeInL at h
    rw [hsp] at h
    dsimp only at h
    rw [hrec] at h
    simp only [Option.some_inj] at h
    subst h
    simp only [htextsL, List.mem_append] at hc ⊢
    obtain ⟨u, hu | hu, hpu⟩ := hc
    · obtain ⟨u2, hu2, hpu2⟩ := ih hrec ⟨u, hu, hpu⟩
      exact ⟨u2, Or.inl hu2, hpu2⟩
    · exact ⟨u, Or.inr hu, hpu⟩
  | case5 w cs rest hsp hrecn ih1 ih2 =>
    intro l2 h hc
    unfold removeInL at h
    rw [hsp] at h
    dsimp only at h
    rw [hrecn] at h
    simp only [Option.map_eq_some'] at h
    obtain ⟨rest2, hrest, hl2⟩ := h
    subst hl2
    simp only [htextsL, List.mem_append] at hc ⊢
    obtain ⟨u, hu | hu, hpu⟩ := hc
    · exact ⟨u, Or.inl hu, hpu⟩
    · obtain ⟨u2, hu2, hpu2⟩ := ih2 hrest ⟨u, hu, hpu⟩
      exact ⟨u2, Or.inr hu2, hpu2⟩

theorem remove_none_not_mem {r : Nat} {l : List HNode} :
    splitAtWrap r l = none → removeInL r l = none → r ∉ wrapRefsL l := by
  induction l using removeInL.induct r with
  | case1 => intro _ _; simp [wrapRefsL]
  | case2 s rest ih =>
    intro hs hr
    unfold splitAtWrap at hs
    unfold removeInL at hr
    simp only [Option.map_eq_none'] at hs hr
    simpa [wrapRefsL] using ih hs hr
  | case3 w cs rest q hsp =>
    intro hs hr
    unfold removeInL at hr
    rw [hsp] at hr
    simp at hr
  | case4 w cs rest hsp cs2 hrec ih =>
    intro hs hr
    unfold removeInL at hr
    rw [hsp] at hr
    dsimp only at hr
    rw [hrec] at hr
    simp at hr
  | case5 w cs rest hsp hrecn ih1 ih2 =>
    intro hs hr
    unfold splitAtWrap at hs
    by_cases hw : w = r
    · rw [if_pos hw] at hs
      simp at hs
    · rw [if_neg hw] at hs
      simp only [Option.map_eq_none'] at hs
      unfold removeInL at hr
      rw [hsp] at hr
      dsimp only at hr
      rw [hrecn] at hr
      simp only [Option.map_eq_none'] at hr
      have h1 := ih1 hsp hrecn
      have h2 := ih2 hs hr
      simp only [wrapRefsL, List.mem_cons, List.mem_append]
      push_neg
      exact ⟨fun he => hw he.symm, h1, h2⟩

theorem removeWrapper_tc {r : Nat} {c c2 : List HNode}
    (h : removeWrapper r c = some c2) : textContentL c2 = textContentL c := by
  unfold removeWrapper at h
  cases hsp : splitAtWrap r c with
  | some q =>
    obtain ⟨q1, q21, q22⟩ := q
    rw [hsp] at h
    simp only [Option.some_inj] at h
    subst h
    exact spliceOut_tc hsp
  | none =>
    rw [hsp] at h
    exact removeInL_tc h

theorem removeWrapper_count {r : Nat} {c c2 : List HNode}
    (h : removeWrapper r c = some c2) (x : Nat) :
    (wrapRefsL c2).count x + (if x = r then 1 else 0) ≤ (wrapRefsL c).count x := by
  unfold removeWrapper at h
  cases hsp : splitAtWrap r c with
  | some q =>
    obtain ⟨q1, q21, q22⟩ := q
    rw [hsp] at h
    simp only [Option.some_inj] at h
    subst h
    exact spliceOut_count hsp x
  | none =>
    rw [hsp] at h
    exact removeInL_count h x

theorem removeWrapper_contains {p : List Char} {r : Nat} {c c2 : List HNode}
    (hp : p ≠ []) (h : removeWrapper r c = some c2)
    (hc : ∃ s ∈ htextsL c, p <:+: s) : ∃ s ∈ htextsL c2, p <:+: s := by
  unfold removeWrapper at h
  cases hsp : splitAtWrap r c with
  | some q =>
    obtain ⟨q1, q21, q22⟩ := q
    rw [hsp] at h
    simp only [Option.some_inj] at h
    subst h
    exact spliceOut_contains hp hsp hc
  | none =>
    rw [hsp] at h
    exact removeInL_contains hp h hc

theorem removeWrapper_none_not_mem {r : Nat} {c : List HNode}
    (h : removeWrapper r c = none) : r ∉ wrapRefsL c := by
  unfold removeWrapper at h
  cases hsp : splitAtWrap r c with
  | some q =>
    rw [hsp] at h
    simp at h
  | none =>
    rw [hsp] at h
    exact remove_none_not_mem hsp h

theorem mapGet_mapDelete_ne {k k2 : String} (h : k ≠ k2) (l : List (String × Nat)) :
    mapGet k (mapDelete k2 l) = mapGet k l := by
  induction l with
  | nil => rfl
  | cons hd tl ih =>
    obtain ⟨k3, v3⟩ := hd
    by_cases hk : k3 = k2
    · subst hk
      simp [mapDelete, mapGet, Ne.symm h]
    · by_cases hk3 : k3 = k
      · subst hk3
        simp [mapDelete, hk, mapGet]
      · simp [mapDelete, hk, mapGet, hk3, ih]

theorem mapSet_absent {k : String} {v : Nat} {l : List (String × Nat)}
    (h : mapGet k l = none) : mapSet k v l = l ++ [(k, v)] := by
  induction l with
  | nil => rfl
  | cons hd tl ih =>
    obtain ⟨k2, v2⟩ := hd
    by_cases hk : k2 = k
    · subst hk
      simp [mapGet] at h
    · simp only [mapGet, if_neg hk] at h
      simp [mapSet, hk, ih h]

theorem not_mem_keys_of_mapGet_none {k : String} {l : List (String × Nat)}
    (h : mapGet k l = none) : k ∉ l.map Prod.fst := by
  induction l with
  | nil => simp
  | cons hd tl ih =>
    obtain ⟨k2, v2⟩ := hd
    by_cases hk : k2 = k
    · subst hk
      simp [mapGet] at h
    · simp only [mapGet, if_neg hk] at h
      simp only [List.map_cons, List.mem_cons]
      push_neg
      exact ⟨fun he => hk he.symm, ih h⟩

theorem len_mapDelete {k : String} {l : List (String × Nat)}
    (h : (mapGet k l).isSome = true) : (mapDelete k l).length + 1 = l.length := by
  induction l with
  | nil => simp [mapGet] at h
  | cons hd tl ih =>
    obtain ⟨k2, v2⟩ := hd
    by_cases hk : k2 = k
    · simp [mapDelete, hk]
    · simp only [mapGet, if_neg hk] at h
      have := ih h
      simp only [mapDelete, if_neg hk, List.length_cons]
      omega

theorem len_mapDelete_le (k : String) (l : List (String × Nat)) :
    (mapDelete k l).length ≤ l.length := by
  induction l with
  | nil => simp [mapDelete]
  | cons hd tl ih =>
    obtain ⟨k2, v2⟩ := hd
    by_cases hk : k2 = k
    · simp [mapDelete, hk]
    · simp only [mapDelete, if_neg hk, List.length_cons]
      omega

theorem mem_of_mem_mapDelete {p : String × Nat} {k : String} {l : List (String × Nat)}
    (h : p ∈ mapDelete k l) : p ∈ l := by
  induction l with
  | nil => simp [mapDelete] at h
  | cons hd tl ih =>
    obtain ⟨k2, v2⟩ := hd
    by_cases hk : k2 = k
    · simp only [mapDelete, if_pos hk] at h
      exact List.mem_cons_of_mem _ h
    · simp only [mapDelete, if_neg hk, List.mem_cons] at h
      rcases h with h | h
      · exact h ▸ List.mem_cons_self _ _
      · exact List.mem_cons_of_mem _ (ih h)

theorem removeTH_nextRef (st : HighlightState) (noteId : String) :
    (removeTextHighlight st noteId).2.nextRef = st.nextRef := by
  unfold removeTextHighlight
  cases hg : mapGet noteId st.noteHighlights with
  | none => rfl
  | some r =>
    dsimp only
    cases hrw : removeWrapper r st.container with
    | some c2 => rfl
    | none => rfl

theorem removeTH_map (st : HighlightState) (noteId : String) :
    (removeTextHighlight st noteId).2.noteHighlights =
      if (mapGet noteId st.noteHighlights).isSome = true
      then mapDelete noteId st.noteHighlights else st.noteHighlights := by
  unfold removeTextHighlight
  cases hg : mapGet noteId st.noteHighlights with
  | none => rfl
  | some r =>
    dsimp only
    cases hrw : removeWrapper r st.container with
    | some c2 => rfl
    | none => rfl

theorem removeTH_tc (st : HighlightState) (noteId : String) :
    textContentL (removeTextHighlight st noteId).2.container =
      textContentL st.container := by
  unfold removeTextHighlight
  cases hg : mapGet noteId st.noteHighlights with
  | none => rfl
  | some r =>
    dsimp only
    cases hrw : removeWrapper r st.container with
    | some c2 => exact removeWrapper_tc hrw
    | none => rfl

theorem removeTH_count (st : HighlightState) (noteId : String) (x : Nat) :
    (wrapRefsL (removeTextHighlight st noteId).2.container).count x ≤
      (wrapRefsL st.container).count x := by
  unfold removeTextHighlight
  cases hg : mapGet noteId st.noteHighlights with
  | none => exact le_refl _
  | some r =>
    dsimp only
    cases hrw : removeWrapper r st.container with
    | some c2 =>
      dsimp only
      have := removeWrapper_count hrw x
      omega
    | none => exact le_refl _

theorem removeTH_contains {p : List Char} (hp : p ≠ []) (st : HighlightState)
    (noteId : String) (h : ∃ s ∈ htextsL st.container, p <:+: s) :
    ∃ s ∈ htextsL (removeTextHighlight st noteId).2.container, p <:+: s := by
  unfold removeTextHighlight
  cases hg : mapGet noteId st.noteHighlights with
  | none => exact h
  | some r =>
    dsimp only
    cases hrw : removeWrapper r st.container with
    | some c2 =>
      dsimp only
      exact removeWrapper_contains hp hrw h
    | none => exact h

theorem removeTH_own {st : HighlightState} {noteId : String} {r : Nat}
    (hg : mapGet noteId st.noteHighlights = some r)
    (hnd : (wrapRefsL st.container).Nodup) :
    r ∉ wrapRefsL (removeTextHighlight st noteId).2.container := by
  unfold removeTextHighlight
  rw [hg]
  dsimp only
  cases hrw : removeWrapper r st.container with
  | some c2 =>
    dsimp only
    have hcc := removeWrapper_count hrw r
    have hle := List.nodup_iff_count_le_one.mp hnd r
    rw [if_pos rfl] at hcc
    intro hmem
    have hnz : (wrapRefsL c2).count r ≠ 0 :=
      fun h0 => (List.count_eq_zero.mp h0) hmem
    omega
  | none =>
    dsimp only
    exact removeWrapper_none_not_mem hrw

theorem removeList_tc (ids : List String) (st : HighlightState) :
    textContentL (removeList ids st).container = textContentL st.container := by
  induction ids generalizing st with
  | nil => rfl
  | cons noteId rest ih =>
    have hstep : removeList (noteId :: rest) st =
        removeList rest (removeTextHighlight st noteId).2 := rfl
    rw [hstep, ih, removeTH_tc]

theorem cleanup_tc (st : HighlightState) :
    textContentL (cleanupHighlights st).container = textContentL st.container := by
  unfold cleanupHighlights
  by_cases hlen : MAX_HIGHLIGHTS < st.noteHighlights.length
  · rw [if_pos hlen]
    exact removeList_tc _ _
  · rw [if_neg hlen]

theorem createTH_tc (st : HighlightState) (noteId : String) (t cb ca : List Char) :
    textContentL (createTextHighlight st noteId t cb ca).2.container =
      textContentL st.container := by
  unfold createTextHighlight
  by_cases ht : t.isEmpty
  · rw [if_pos ht]
  · rw [if_neg ht]
    dsimp only
    cases hw : wrapFirstL t cb ca (removeTextHighlight st noteId).2.nextRef
        (removeTextHighlight st noteId).2.container with
    | none =>
      dsimp only
      exact removeTH_tc st noteId
    | some q =>
      cases q with
      | none =>
        dsimp only
        exact removeTH_tc st noteId
      | some c2 =>
        dsimp only
        rw [cleanup_tc]
        exact (wrapFirst_tc hw).trans (removeTH_tc st noteId)

theorem applyOp_tc (st : HighlightState) (op : HOp) :
    textContentL (applyOp st op).container = textContentL st.container := by
  cases op with
  | create noteId t cb ca => exact createTH_tc st noteId t cb ca
  | remove noteId => exact removeTH_tc st noteId

theorem applyOps_tc (st : HighlightState) (ops : List HOp) :
    textContentL (applyOps st ops).container = textContentL st.container := by
  induction ops generalizing st with
  | nil => rfl
  | cons op rest ih =>
    have hstep : applyOps st (op :: rest) = applyOps (applyOp st op) rest := rfl
    rw [hstep, ih, applyOp_tc]

/-- The selection manager's state invariant: every wrapper reference in the
container and in the noteHighlights map is below the fresh-reference
counter, wrapper references and map keys are duplicate-free, and the map
is within the MAX_HIGHLIGHTS cap. -/
def StateWF (st : HighlightState) : Prop :=
  (∀ r ∈ wrapRefsL st.container, r < st.nextRef) ∧
  (wrapRefsL st.container).Nodup ∧
  (∀ p ∈ st.noteHighlights, p.2 < st.nextRef) ∧
  (st.noteHighlights.map Prod.fst).Nodup ∧
  st.noteHighlights.length ≤ MAX_HIGHLIGHTS

theorem cleanup_noop {st : HighlightState}
    (h : st.noteHighlights.length ≤ MAX_HIGHLIGHTS) : cleanupHighlights st = st := by
  unfold cleanupHighlights
  rw [if_neg (by omega)]

theorem secondCreate_aux (st1 : HighlightState) (noteId : String) (t cb ca : List Char)
    (N : Nat) (ht : t ≠ [])
    (F1 : st1.nextRef = N + 1)
    (F2 : mapGet noteId st1.noteHighlights = some N)
    (F3 : (st1.noteHighlights.map Prod.fst).Nodup)
    (F4 : st1.noteHighlights.length ≤ MAX_HIGHLIGHTS)
    (F5 : ∀ x ∈ wrapRefsL st1.container, x < N + 1)
    (F6 : (wrapRefsL st1.container).Nodup)
    (F7 : ∃ s ∈ htextsL st1.container, t <:+: s) :
    (createTextHighlight st1 noteId t cb ca).1 = true ∧
    mapGet noteId (createTextHighlight st1 noteId t cb ca).2.noteHighlights =
      some (N + 1) ∧
    (wrapRefsL (createTextHighlight st1 noteId t cb ca).2.container).count (N + 1) = 1 ∧
    (wrapRefsL (createTextHighlight st1 noteId t cb ca).2.container).count N = 0 := by
  have htE : t.isEmpty = false := by
    cases t with
    | nil => exact absurd rfl ht
    | cons c cs => rfl
  rcases hrem : removeTextHighlight st1 noteId with ⟨b1, st1'⟩
  have G1 : st1'.nextRef = N + 1 := by
    have hh := removeTH_nextRef st1 noteId
    rw [hrem] at hh
    simpa [F1] using hh
  have Gmap : st1'.noteHighlights = mapDelete noteId st1.noteHighlights := by
    have hh := removeTH_map st1 noteId
    rw [hrem, F2] at hh
    simpa using hh
  have G3 : mapGet noteId st1'.noteHighlights = none := by
    rw [Gmap]
    exact mapGet_mapDelete_self F3
  have G4 : st1'.noteHighlights.length + 1 = st1.noteHighlights.length := by
    rw [Gmap]
    exact len_mapDelete (by rw [F2]; rfl)
  have G6 : N ∉ wrapRefsL st1'.container := by
    have hh := removeTH_own F2 F6
    rw [hrem] at hh
    exact hh
  have G5 : ∀ x ∈ wrapRefsL st1'.container, x < N + 1 := by
    intro x hx
    have hc2 := removeTH_count st1 noteId x
    rw [hrem] at hc2
    dsimp only at hc2
    have hc1 : (wrapRefsL st1'.container).count x ≠ 0 :=
      fun h0 => (List.count_eq_zero.mp h0) hx
    have hmem : x ∈ wrapRefsL st1.container := by
      by_contra hnm
      have h0 := List.count_eq_zero.mpr hnm
      omega
    exact F5 x hmem
  have G6' : N + 1 ∉ wrapRefsL st1'.container :=
    fun hmem => absurd (G5 _ hmem) (lt_irrefl _)
  have G7 : ∃ s ∈ htextsL st1'.container, t <:+: s := by
    have hh := removeTH_contains ht st1 noteId F7
    rw [hrem] at hh
    exact hh
  have hws : (wrapFirstL t cb ca (N + 1) st1'.container).isSome = true :=
    wrapFirst_isSome_of_contains G7
  obtain ⟨q, hq⟩ := Option.isSome_iff_exists.mp hws
  cases q with
  | none => exact absurd hq (wrapFirst_ne_some_none _ _ _ _ _)
  | some c4 =>
    have hkeyEq : createTextHighlight st1 noteId t cb ca =
        (true, cleanupHighlights
          { container := c4
            noteHighlights := mapSet noteId (N + 1) st1'.noteHighlights
            nextRef := N + 2 }) := by
      unfold createTextHighlight
      rw [if_neg (by simp [htE])]
      dsimp only
      rw [hrem]
      dsimp only
      rw [G1, hq]
    have hlenB : (mapSet noteId (N + 1) st1'.noteHighlights).length ≤
        MAX_HIGHLIGHTS := by
      rw [mapSet_absent G3]
      simp only [List.length_append, List.length_cons, List.length_nil]
      omega
    have hcl : cleanupHighlights
        { container := c4
          noteHighlights := mapSet noteId (N + 1) st1'.noteHighlights
          nextRef := N + 2 } =
        ({ container := c4
           noteHighlights := mapSet noteId (N + 1) st1'.noteHighlights
           nextRef := N + 2 } : HighlightState) := cleanup_noop hlenB
    rw [hkeyEq, hcl]
    refine ⟨rfl, ?_, ?_, ?_⟩
    · exact mapGet_mapSet_self noteId (N + 1) st1'.noteHighlights
    · have hc := wrapFirst_count hq (N + 1)
      rw [if_pos rfl] at hc
      have h0 : (wrapRefsL st1'.container).count (N + 1) = 0 :=
        List.count_eq_zero.mpr G6'
      dsimp only
      omega
    · have hc := wrapFirst_count hq N
      rw [if_neg (by omega)] at hc
      have h0 : (wrapRefsL st1'.container).count N = 0 :=
        List.count_eq_zero.mpr G6
      dsimp only
      omega

theorem refs_lt_of_count_le {a b : List Nat} {n : Nat}
    (hle : ∀ x, a.count x ≤ b.count x) (hb : ∀ x ∈ b, x < n) : ∀ x ∈ a, x < n := by
  intro x hx
  have h1 : a.count x ≠ 0 := fun h0 => (List.count_eq_zero.mp h0) hx
  have h2 := hle x
  have hmem : x ∈ b := by
    by_contra hnm
    have h0 := List.count_eq_zero.mpr hnm
    omega
  exact hb x hmem

theorem nodup_of_count_le {a b : List Nat}
    (hle : ∀ x, a.count x ≤ b.count x) (hb : b.Nodup) : a.Nodup := by
  rw [List.nodup_iff_count_le_one] at hb ⊢
  intro x
  exact le_trans (hle x) (hb x)

theorem nodup_concat {α : Type} {l : List α} {a : α} (hl : l.Nodup) (ha : a ∉ l) :
    (l ++ [a]).Nodup := by
  rw [List.nodup_middle]
  simp [List.nodup_cons, hl, ha]

theorem insert_refs_facts {a b : List Nat} {n : Nat}
    (hc : ∀ x, a.count x = b.count x + (if x = n then 1 else 0))
    (hb : ∀ x ∈ b, x < n) (hbn : b.Nodup) :
    (∀ x ∈ a, x < n + 1) ∧ a.Nodup ∧ a.count n = 1 := by
  have hn0 : b.count n = 0 :=
    List.count_eq_zero.mpr (fun hm => absurd (hb _ hm) (lt_irrefl _))
  have hble := List.nodup_iff_count_le_one.mp hbn
  refine ⟨?_, ?_, ?_⟩
  · intro x hx
    rcases eq_or_ne x n with rfl | hxn
    · omega
    · have h1 : a.count x ≠ 0 := fun h0 => (List.count_eq_zero.mp h0) hx
      have h2 := hc x
      rw [if_neg hxn] at h2
      have hmem : x ∈ b := by
        by_contra hnm
        have h0 := List.count_eq_zero.mpr hnm
        omega
      exact lt_trans (hb x hmem) (Nat.lt_succ_self n)
  · rw [List.nodup_iff_count_le_one]
    intro x
    have h2 := hc x
    rcases eq_or_ne x n with rfl | hxn
    · rw [if_pos rfl] at h2
      omega
    · rw [if_neg hxn] at h2
      have := hble x
      omega
  · have h2 := hc n
    rw [if_pos rfl] at h2
    omega

/-- C6: calling createTextHighlight twice in succession for the same noteId
(starting from a well-formed state and with the first call succeeding)
succeeds again and leaves exactly one live wrapper: the note's recorded
wrapper reference occurs exactly once in the container and the wrapper
created by the first call is gone; and after an arbitrary sequence of
create/remove operations the container's text content is byte-identical to
the original. -/
theorem createTextHighlight_twice_single_wrapper
    (st0 : HighlightState) (noteId : String) (t cb ca : List Char)
    (hwf : StateWF st0)
    (h1 : (createTextHighlight st0 noteId t cb ca).1 = true) :
    ((createTextHighlight (createTextHighlight st0 noteId t cb ca).2
        noteId t cb ca).1 = true ∧
      ∃ rOld rNew : Nat, rOld ≠ rNew ∧
        mapGet noteId (createTextHighlight st0 noteId t cb ca).2.noteHighlights =
          some rOld ∧
        mapGet noteId
          (createTextHighlight (createTextHighlight st0 noteId t cb ca).2
            noteId t cb ca).2.noteHighlights = some rNew ∧
        (wrapRefsL (createTextHighlight (createTextHighlight st0 noteId t cb ca).2
            noteId t cb ca).2.container).count rNew = 1 ∧
        (wrapRefsL (createTextHighlight (createTextHighlight st0 noteId t cb ca).2
            noteId t cb ca).2.container).count rOld = 0) ∧
    ∀ (st : HighlightState) (ops : List HOp),
      textContentL (applyOps st ops).container = textContentL st.container := by
  obtain ⟨hwf1, hwf2, hwf3, hwf4, hwf5⟩ := hwf
  refine ⟨?_, fun st ops => applyOps_tc st ops⟩
  have htE : t.isEmpty = false := by
    by_contra hcon
    rw [Bool.not_eq_false] at hcon
    unfold createTextHighlight at h1
    rw [if_pos hcon] at h1
    exact Bool.false_ne_true h1
  have ht : t ≠ [] := by
    cases t with
    | nil => simp at htE
    | cons c cs => exact List.cons_ne_nil c cs
  rcases hrem : removeTextHighlight st0 noteId with ⟨b0, st0'⟩
  have hnr0 : st0'.nextRef = st0.nextRef := by
    have hh := removeTH_nextRef st0 noteId
    rw [hrem] at hh
    exact hh
  unfold createTextHighlight at h1
  rw [if_neg (by simp [htE])] at h1
  dsimp only at h1
  rw [hrem] at h1
  dsimp only at h1
  rw [hnr0] at h1
  cases hw1 : wrapFirstL t cb ca st0.nextRef st0'.container with
  | none =>
    rw [hw1] at h1
    simp at h1
  | some q =>
    cases q with
    | none =>
      rw [hw1] at h1
      simp at h1
    | some c2 =>
      have hkey1 : (createTextHighlight st0 noteId t cb ca).2 =
          cleanupHighlights
            { container := c2
              noteHighlights := mapSet noteId st0.nextRef st0'.noteHighlights
              nextRef := st0.nextRef + 1 } := by
        unfold createTextHighlight
        rw [if_neg (by simp [htE])]
        dsimp only
        rw [hrem]
        dsimp only
        rw [hnr0, hw1]
      have hmget0 : mapGet noteId st0'.noteHighlights = none := by
        have hh := removeTH_map st0 noteId
        rw [hrem] at hh
        dsimp only at hh
        by_cases hg : (mapGet noteId st0.noteHighlights).isSome = true
        · rw [if_pos hg] at hh
          rw [hh]
          exact mapGet_mapDelete_self hwf4
        · rw [if_neg hg] at hh
          rw [hh]
          exact Option.not_isSome_iff_eq_none.mp hg
      have hkeys0 : (st0'.noteHighlights.map Prod.fst).Nodup := by
        have hh := removeTH_map st0 noteId
        rw [hrem] at hh
        dsimp only at hh
        by_cases hg : (mapGet noteId st0.noteHighlights).isSome = true
        · rw [if_pos hg] at hh
          rw [hh]
          exact (mapDelete_keys_sublist _ _).nodup hwf4
        · rw [if_neg hg] at hh
          rw [hh]
          exact hwf4
      have hlen0 : st0'.noteHighlights.length ≤ st0.noteHighlights.length := by
        have hh := removeTH_map st0 noteId
        rw [hrem] at hh
        dsimp only at hh
        by_cases hg : (mapGet noteId st0.noteHighlights).isSome = true
        · rw [if_pos hg] at hh
          rw [hh]
          exact len_mapDelete_le _ _
        · rw [if_neg hg] at hh
          rw [hh]
      have hcount0 : ∀ x, (wrapRefsL st0'.container).count x ≤
          (wrapRefsL st0.container).count x := by
        intro x
        have hh := removeTH_count st0 noteId x
        rw [hrem] at hh
        dsimp only at hh
        exact hh
      have hrefs0 : ∀ x ∈ wrapRefsL st0'.container, x < st0.nextRef :=
        refs_lt_of_count_le hcount0 hwf1
      have hnd0 : (wrapRefsL st0'.container).Nodup := nodup_of_count_le hcount0 hwf2
      obtain ⟨hrefsA, hndA, hcNA⟩ :=
        insert_refs_facts (wrapFirst_count hw1) hrefs0 hnd0
      have hcontA : ∃ s ∈ htextsL c2, t <:+: s := wrapFirst_contains hw1
      have hmsA : mapSet noteId st0.nextRef st0'.noteHighlights =
          st0'.noteHighlights ++ [(noteId, st0.nextRef)] := mapSet_absent hmget0
      have hgA : mapGet noteId (mapSet noteId st0.nextRef st0'.noteHighlights) =
          some st0.nextRef := mapGet_mapSet_self _ _ _
      have hkeysA : ((mapSet noteId st0.nextRef st0'.noteHighlights).map
          Prod.fst).Nodup := by
        rw [hmsA, List.map_append]
        exact nodup_concat hkeys0 (not_mem_keys_of_mapGet_none hmget0)
      have hlenA : (mapSet noteId st0.nextRef st0'.noteHighlights).length =
          st0'.noteHighlights.length + 1 := by
        rw [hmsA]
        simp
      by_cases hbig : MAX_HIGHLIGHTS <
          (mapSet noteId st0.nextRef st0'.noteHighlights).length
      · have hlen0eq : st0'.noteHighlights.length = MAX_HIGHLIGHTS := by omega
        cases hm0 : st0'.noteHighlights with
        | nil =>
          rw [hm0] at hlen0eq
          simp [MAX_HIGHLIGHTS] at hlen0eq
        | cons p restm =>
          obtain ⟨k0, r0⟩ := p
          have hnotin := not_mem_keys_of_mapGet_none hmget0
          have hk0 : noteId ≠ k0 := by
            intro he
            apply hnotin
            rw [hm0, he]
            exact List.mem_cons_self _ _
          have hgk0 : mapGet k0 (mapSet noteId st0.nextRef st0'.noteHighlights) =
              some r0 := by
            rw [hmsA, hm0]
            simp [mapGet]
          have hclean : cleanupHighlights
              { container := c2
                noteHighlights := mapSet noteId st0.nextRef st0'.noteHighlights
                nextRef := st0.nextRef + 1 } =
              (removeTextHighlight
                { container := c2
                  noteHighlights := mapSet noteId st0.nextRef st0'.noteHighlights
                  nextRef := st0.nextRef + 1 } k0).2 := by
            unfold cleanupHighlights
            dsimp only
            rw [if_pos hbig]
            rw [show (mapSet noteId st0.nextRef st0'.noteHighlights).length -
                MAX_HIGHLIGHTS = 1 from by omega]
            rw [hmsA, hm0]
            rfl
          rcases hremA : removeTextHighlight
              { container := c2
                noteHighlights := mapSet noteId st0.nextRef st0'.noteHighlights
                nextRef := st0.nextRef + 1 } k0 with ⟨bA, st1⟩
          have F1 : st1.nextRef = st0.nextRef + 1 := by
            have hh := removeTH_nextRef
              { container := c2
                noteHighlights := mapSet noteId st0.nextRef st0'.noteHighlights
                nextRef := st0.nextRef + 1 } k0
            rw [hremA] at hh
            exact hh
          have hmapA : st1.noteHighlights =
              mapDelete k0 (mapSet noteId st0.nextRef st0'.noteHighlights) := by
            have hh := removeTH_map
              { container := c2
                noteHighlights := mapSet noteId st0.nextRef st0'.noteHighlights
                nextRef := st0.nextRef + 1 } k0
            rw [hremA] at hh
            dsimp only at hh
            rw [hgk0] at hh
            simpa using hh
          have F2 : mapGet noteId st1.noteHighlights = some st0.nextRef := by
            rw [hmapA, mapGet_mapDelete_ne hk0, hgA]
          have F3 : (st1.noteHighlights.map Prod.fst).Nodup := by
            rw [hmapA]
            exact (mapDelete_keys_sublist _ _).nodup hkeysA
          have F4 : st1.noteHighlights.length ≤ MAX_HIGHLIGHTS := by
            have hld : (mapDelete k0 (mapSet noteId st0.nextRef
                st0'.noteHighlights)).length + 1 =
                (mapSet noteId st0.nextRef st0'.noteHighlights).length :=
              len_mapDelete (by rw [hgk0]; rfl)
            rw [hmapA]
            omega
          have hcnt1 : ∀ x, (wrapRefsL st1.container).count x ≤
              (wrapRefsL c2).count x := by
            intro x
            have hh := removeTH_count
              { container := c2
                noteHighlights := mapSet noteId st0.nextRef st0'.noteHighlights
                nextRef := st0.nextRef + 1 } k0 x
            rw [hremA] at hh
            dsimp only at hh
            exact hh
          have F5 : ∀ x ∈ wrapRefsL st1.container, x < st0.nextRef + 1 :=
            refs_lt_of_count_le hcnt1 hrefsA
          have F6 : (wrapRefsL st1.container).Nodup := nodup_of_count_le hcnt1 hndA
          have F7 : ∃ s ∈ htextsL st1.container, t <:+: s := by
            have hh := removeTH_contains ht
              { container := c2
                noteHighlights := mapSet noteId st0.nextRef st0'.noteHighlights
                nextRef := st0.nextRef + 1 } k0 hcontA
            rw [hremA] at hh
            exact hh
          have haux := secondCreate_aux st1 noteId t cb ca st0.nextRef
            ht F1 F2 F3 F4 F5 F6 F7
          rw [hkey1, hclean, hremA]
          exact ⟨haux.1, st0.nextRef, st0.nextRef + 1, by omega, F2,
            haux.2.1, haux.2.2.1, haux.2.2.2⟩
      · have hle : (mapSet noteId st0.nextRef st0'.noteHighlights).length ≤
            MAX_HIGHLIGHTS := Nat.le_of_not_lt hbig
        have hclean : cleanupHighlights
            { container := c2
              noteHighlights := mapSet noteId st0.nextRef st0'.noteHighlights
              nextRef := st0.nextRef + 1 } =
            ({ container := c2
               noteHighlights := mapSet noteId st0.nextRef st0'.noteHighlights
               nextRef := st0.nextRef + 1 } : HighlightState) := cleanup_noop hle
        have haux := secondCreate_aux
          { container := c2
            noteHighlights := mapSet noteId st0.nextRef st0'.noteHighlights
            nextRef := st0.nextRef + 1 } noteId t cb ca st0.nextRef
          ht rfl hgA hkeysA hle hrefsA hndA hcontA
        rw [hkey1, hclean]
        exact ⟨haux.1, st0.nextRef, st0.nextRef + 1, by omega, hgA,
          haux.2.1, haux.2.2.1, haux.2.2.2⟩

/-- A concrete initial highlight state: one text node, no highlights. -/
def c6Start : HighlightState := ⟨[HNode.text "hello world".toList], [], 0⟩

theorem createTextHighlight_twice_single_wrapper_witness :
    StateWF c6Start ∧
    (createTextHighlight c6Start "n1" "world".toList "hello ".toList []).1 = true ∧
    (((createTextHighlight
        (createTextHighlight c6Start "n1" "world".toList "hello ".toList []).2
        "n1" "world".toList "hello ".toList []).1 = true ∧
      ∃ rOld rNew : Nat, rOld ≠ rNew ∧
        mapGet "n1" (createTextHighlight c6Start "n1" "world".toList
          "hello ".toList []).2.noteHighlights = some rOld ∧
        mapGet "n1" (createTextHighlight
          (createTextHighlight c6Start "n1" "world".toList "hello ".toList []).2
          "n1" "world".toList "hello ".toList []).2.noteHighlights = some rNew ∧
        (wrapRefsL (createTextHighlight
          (createTextHighlight c6Start "n1" "world".toList "hello ".toList []).2
          "n1" "world".toList "hello ".toList []).2.container).count rNew = 1 ∧
        (wrapRefsL (createTextHighlight
          (createTextHighlight c6Start "n1" "world".toList "hello ".toList []).2
          "n1" "world".toList "hello ".toList []).2.container).count rOld = 0) ∧
      ∀ (st : HighlightState) (ops : List HOp),
        textContentL (applyOps st ops).container = textContentL st.container) :=
  ⟨by simp [c6Start, StateWF, wrapRefsL, MAX_HIGHLIGHTS],
   by simp [c6Start, createTextHighlight, removeTextHighlight, mapGet, wrapFirstL,
     findTextOffset, jsIncludes, jsIndexOf, cleanupHighlights, MAX_HIGHLIGHTS, mapSet],
   createTextHighlight_twice_single_wrapper c6Start "n1" "world".toList
     "hello ".toList []
     (by simp [c6Start, StateWF, wrapRefsL, MAX_HIGHLIGHTS])
     (by simp [c6Start, createTextHighlight, removeTextHighlight, mapGet, wrapFirstL,
       findTextOffset, jsIncludes, jsIndexOf, cleanupHighlights, MAX_HIGHLIGHTS,
       mapSet])⟩

end YAWN
